import Mathlib

/-!
Verification of the minilambda invocation core (registry, middleware chain,
invoker) against its natural-language specification.

The Go source is shallowly embedded: Go maps become association lists,
Go `error` values become `Option Err` (with an inductive `Err` mirroring the
distinct `fmt.Errorf` shapes, `%w` wrapping becoming a constructor argument),
fallible functions return `Except Err O` or pair their result with an
`Option Err`, Go's zero values become `default` of an `Inhabited` instance,
and real-time observations (`time.Now()`, elapsed durations, `ctx.Err()`
polls) are supplied by explicit oracle records.  Durations are in
nanoseconds (`time.Duration`'s unit).
-/

namespace MiniLambda

/-- Go `error` values produced by the core, one constructor per distinct
`fmt.Errorf` shape; `%w`-wrapped inner errors become constructor arguments.
`canceled`/`deadlineExceeded` are the two possible results of `ctx.Err()`. -/
inductive Err : Type where
  | canceled : Err
  | deadlineExceeded : Err
  | msg : String → Err
  | notFound : String → Err
  | duplicate : String → Err
  | constructorNotFound : String → Err
  | pipelineFailed : Nat → Err → Err
  | maxRetriesExceeded : Err → Err
  | afterRetries : Nat → Err → Err
  deriving DecidableEq, Repr

/-- Lookup in an association list modelling a Go `map[string]V`. -/
def mapLookup (m : List (String × α)) (k : String) : Option α :=
  match m with
  | [] => none
  | (k', v) :: rest => if k' = k then some v else mapLookup rest k

/-- Remove a key from an association list (Go `delete(m, k)`). -/
def mapErase : List (String × α) → String → List (String × α)
  | [], _ => []
  | (k', v) :: rest, k =>
    if k' = k then mapErase rest k else (k', v) :: mapErase rest k

/-- Insert/overwrite a key (Go `m[k] = v`). -/
def mapInsert (m : List (String × α)) (k : String) (v : α) : List (String × α) :=
  mapErase m k ++ [(k, v)]

/-- Configuration record of a Unit (source: `core.LambdaOptions`).
`timeout` is in nanoseconds. -/
structure LambdaOptions where
  timeout : Int
  enableMetrics : Bool
  concurrency : Int
  retries : Nat
  enableCallback : Bool
  componentType : String
  deriving DecidableEq, Repr

/-- Source: `core.DefaultOptions` (30s timeout, metrics on, concurrency 10,
0 retries, callback off, component type "Lambda"). -/
def DefaultOptions : LambdaOptions :=
  { timeout := 30000000000
  , enableMetrics := true
  , concurrency := 10
  , retries := 0
  , enableCallback := false
  , componentType := "Lambda" }

/-- Source: `core.LambdaMeta`.  `registeredAt` is a `time.Now()` oracle value. -/
structure LambdaMeta where
  name : String
  inputType : String
  outputType : String
  componentType : String
  registeredAt : Nat
  deriving DecidableEq, Repr

/-- Source: `core.LambdaResult[O]`: output, error, elapsed duration,
completion timestamp. -/
structure LambdaResult (O : Type) where
  output : O
  error : Option Err
  duration : Nat
  timestamp : Nat
  deriving DecidableEq, Repr

instance [Inhabited O] : Inhabited (LambdaResult O) :=
  ⟨{ output := default, error := none, duration := 0, timestamp := 0 }⟩

/-- Source: `core.Lambda[I,O]`.  The underlying Go function may be stateful,
so its outcome is indexed by the attempt number in addition to the input;
a pure function simply ignores the index.  The mutable statistics record is
not modelled (no claim concerns it). -/
structure Lambda (I O : Type) where
  name : String
  invoke : I → Nat → Except Err O
  options : LambdaOptions

/-- Source: `core.Lambda.GetName`. -/
def Lambda.GetName (l : Lambda I O) : String := l.name

/-- Source: `core.Lambda.GetMeta`; the reflected type strings and
`time.Now()` are oracle inputs. -/
def Lambda.GetMetaAt (l : Lambda I O) (inT outT : String) (now : Nat) : LambdaMeta :=
  { name := l.name
  , inputType := inT
  , outputType := outT
  , componentType := l.options.componentType
  , registeredAt := now }

/-- Source: `registry.Registry[I,O]`: the three maps `lambdas`,
`constructors` and `meta` (the `sync.RWMutex` serialises access and is
absorbed by the sequential embedding). -/
structure Registry (I O : Type) where
  lambdas : List (String × Lambda I O)
  constructors : List (String × (Unit → Lambda I O))
  meta : List (String × LambdaMeta)

/-- The fresh registry built by `registry.getRegistry` / `NewRegistry`. -/
def Registry.empty : Registry I O :=
  { lambdas := [], constructors := [], meta := [] }

/-- Source: `registry.Registry.Register`.  Fails with the duplicate error and
leaves the state untouched when the name is already a concrete Unit,
otherwise inserts the Unit and its derived metadata.  `inT`/`outT`/`now`
are the reflection and clock oracles feeding `GetMeta`. -/
def Registry.Register (r : Registry I O) (l : Lambda I O)
    (inT outT : String) (now : Nat) : Registry I O × Option Err :=
  if (mapLookup r.lambdas l.GetName).isSome then
    (r, some (.duplicate l.GetName))
  else
    ({ r with
        lambdas := mapInsert r.lambdas l.GetName l
      , meta := mapInsert r.meta l.GetName (l.GetMetaAt inT outT now) }, none)

/-- Source: `registry.Registry.RegisterWithConstructor` (stores the factory,
overwriting any previous factory of the same name). -/
def Registry.RegisterWithConstructor (r : Registry I O) (name : String)
    (ctor : Unit → Lambda I O) : Registry I O :=
  { r with constructors := mapInsert r.constructors name ctor }

/-- Source: `registry.Registry.Get` — the `(value, ok)` pair of the Go map
read becomes an `Option`. -/
def Registry.Get (r : Registry I O) (name : String) : Option (Lambda I O) :=
  mapLookup r.lambdas name

/-- Source: `registry.Registry.GetMeta`. -/
def Registry.GetMeta (r : Registry I O) (name : String) : Option LambdaMeta :=
  mapLookup r.meta name

/-- Source: `registry.Registry.Build`.  Note the source discards the result
of `r.Register(lambda)` (line 104), so a duplicate-name failure during the
re-registration is silently ignored and the materialized Unit is returned
with a nil error regardless. -/
def Registry.Build (r : Registry I O) (name : String)
    (inT outT : String) (now : Nat) :
    Registry I O × Option (Lambda I O) × Option Err :=
  match mapLookup r.constructors name with
  | none => (r, none, some (.constructorNotFound name))
  | some ctor =>
    let l := ctor ()
    ((r.Register l inT outT now).1, some l, none)

/-- Source: `registry.Registry.List` — names of concrete Units, then factory
names that do not already have a concrete Unit. -/
def Registry.List (r : Registry I O) : List String :=
  r.lambdas.map Prod.fst ++
    (r.constructors.map Prod.fst).filter
      (fun n => (mapLookup r.lambdas n).isNone)

/-- Source: `registry.Registry.Unregister`: a concrete Unit (plus its
metadata) is removed first when present; only otherwise is the factory
entry removed. -/
def Registry.Unregister (r : Registry I O) (name : String) :
    Registry I O × Bool :=
  if (mapLookup r.lambdas name).isSome then
    ({ r with lambdas := mapErase r.lambdas name
            , meta := mapErase r.meta name }, true)
  else if (mapLookup r.constructors name).isSome then
    ({ r with constructors := mapErase r.constructors name }, true)
  else
    (r, false)

/-- Source: `registry.registryKey` — the reflected input type string,
`"->"`, the reflected output type string. -/
def registryKey (inT outT : String) : String := inT ++ "->" ++ outT

/-- The `registry.globalRegistries` `sync.Map`, restricted to one
representation type pair: registries of every (I,O) pair live in one map
keyed by `registryKey`; the embedding models the key-indexed store, with
Go's distinct type identities appearing as distinct key strings. -/
def GlobalStore (I O : Type) : Type := List (String × Registry I O)

/-- Source: `registry.getRegistry` — return the stored registry for the key,
or a fresh empty one. -/
def getRegistryAt (g : GlobalStore I O) (key : String) : Registry I O :=
  (mapLookup g key).getD Registry.empty

/-- Store back a (possibly fresh or updated) registry under its key
(the `globalRegistries.Store` of `getRegistry`, plus the write-back the
sequential embedding needs to make mutation explicit). -/
def putRegistryAt (g : GlobalStore I O) (key : String) (r : Registry I O) :
    GlobalStore I O :=
  mapInsert g key r

/-- Source: `registry.RegisterLambda` (specialised to an already-built
Unit): register into the type pair's registry selected by `registryKey`. -/
def registerLambdaG (g : GlobalStore I O) (inT outT : String)
    (l : Lambda I O) (now : Nat) : GlobalStore I O × Option Err :=
  let key := registryKey inT outT
  let p := (getRegistryAt g key).Register l inT outT now
  (putRegistryAt g key p.1, p.2)

/-- Source: `registry.GetLambda` — lookup through the type pair's registry. -/
def getLambdaG (g : GlobalStore I O) (inT outT : String) (name : String) :
    Option (Lambda I O) :=
  (getRegistryAt g (registryKey inT outT)).Get name

/-- Observations of a Go `context.Context` during a retry loop: `pre k` is
what the `select` on `ctx.Done()` sees just before the backoff wait of
re-attempt `k` (`some e` means the context is done with `ctx.Err() = e`, so
that branch of the `select` fires), and `post k` is `ctx.Err()` polled right
after attempt `k` fails. -/
structure CtxObs where
  pre : Nat → Option Err
  post : Nat → Option Err

/-- A context that is never done. -/
def cleanCtx : CtxObs := { pre := fun _ => none, post := fun _ => none }

/-- Observable events of a retry loop: a backoff wait (duration in
nanoseconds) or the execution of attempt `k`. -/
inductive REvent : Type where
  | wait : Nat → REvent
  | attempt : Nat → REvent
  deriving DecidableEq, Repr

/-- The wait performed before attempt `k` of `Lambda.invokeWithRetry`
(source line 535): none before attempt 0, `attempt * 100ms` otherwise. -/
def retryWaits (attempt : Nat) : List REvent :=
  if attempt = 0 then [] else [.wait (attempt * 100000000)]

/-- Loop body of `core.Lambda.invokeWithRetry` (source lines 529-550),
unrolled on the remaining iteration count `fuel`; `attempt` is the loop
counter and `last` the accumulated `lastErr`.  Returns the Go `(O, error)`
pair as an `Except` together with the trace of waits and attempts. -/
def retryGo [Inhabited O] (f : Nat → Except Err O) (cx : CtxObs) :
    Nat → Nat → Option Err → Except Err O × List REvent
  | _, 0, last =>
    -- loop exhausted: `return zero, lastErr`
    (match last with
     | some e => .error e
     | none => .ok default, [])
  | attempt, fuel + 1, _ =>
    if 0 < attempt ∧ (cx.pre attempt).isSome then
      -- `select` saw `ctx.Done()` before the wait: `return zero, ctx.Err()`
      (.error ((cx.pre attempt).getD .canceled), [])
    else
      match f attempt with
      | .ok out => (.ok out, retryWaits attempt ++ [.attempt attempt])
      | .error e =>
        match cx.post attempt with
        | some ce =>
          -- context error after a failed attempt: never retried past
          (.error ce, retryWaits attempt ++ [.attempt attempt])
        | none =>
          let rest := retryGo f cx (attempt + 1) fuel (some e)
          (rest.1, retryWaits attempt ++ [.attempt attempt] ++ rest.2)

/-- Source: `core.Lambda.invokeWithRetry` — `retries + 1` loop iterations
starting at attempt 0 with `lastErr = nil`. -/
def invokeWithRetry [Inhabited O] (retries : Nat) (f : Nat → Except Err O)
    (cx : CtxObs) : Except Err O × List REvent :=
  retryGo f cx 0 (retries + 1) none

/-- The trace generated by `n` consecutive attempts starting at attempt
number `a`: each attempt `k > 0` is preceded by its linear-backoff wait of
`k * 100ms`. -/
def retryTraceFrom (a : Nat) : Nat → List REvent
  | 0 => []
  | n + 1 => (retryWaits a ++ [.attempt a]) ++ retryTraceFrom (a + 1) n

/-- Whether an event is the execution of an attempt. -/
def isAttemptEv : REvent → Bool
  | .attempt _ => true
  | .wait _ => false

/-- Number of attempts recorded in a trace. -/
def attemptEvents (tr : List REvent) : Nat := tr.countP isAttemptEv

/-- Whether a Go `(O, error)` pair has a nil error. -/
def isOkE : Except Err O → Bool
  | .ok _ => true
  | .error _ => false

/-- Observable events of the Retry middleware loop; the wait duration is a
signed 64-bit nanosecond count (`time.Duration`), kept as `Int` because the
backoff computation can overflow. -/
inductive MEvent : Type where
  | wait : Int → MEvent
  | attempt : Nat → MEvent
  deriving DecidableEq, Repr

/-- Two's-complement wrap-around of a 64-bit signed integer (Go `int64`
arithmetic). -/
def wrap64 (n : Int) : Int := (n + 2 ^ 63) % 2 ^ 64 - 2 ^ 63

/-- Go's `1 << uint(s)` on a 64-bit `int`: shifting past the width yields 0,
and `1 << 63` wraps to the minimum `int64`. -/
def goShl1 (s : Nat) : Int := if 64 ≤ s then 0 else wrap64 (2 ^ s)

/-- The backoff computed by the `Retry` middleware before re-attempt
`attempt` (source lines 219-222):
`time.Duration(1<<uint(attempt-1)) * 100 * time.Millisecond`, capped at 5s.
All arithmetic is 64-bit and wraps; a single outer `wrap64` is equivalent
to wrapping after each multiplication because wrapping is a ring map on
residues mod 2^64. -/
def mwBackoff (attempt : Nat) : Int :=
  let b := wrap64 (goShl1 (attempt - 1) * 100 * 1000000)
  if 5000000000 < b then 5000000000 else b

/-- The wait performed before attempt `attempt` of the Retry middleware:
none before attempt 0; `time.After` fires immediately when the computed
backoff is non-positive, which the trace still records as that backoff. -/
def mwWaits (attempt : Nat) : List MEvent :=
  if attempt = 0 then [] else [.wait (mwBackoff attempt)]

/-- Loop body of the `Retry` middleware (source `core.Retry`, lines
211-246), unrolled on the remaining iteration count.  Successive calls of
`next` are indexed by the attempt number (`f k` is what the `next` closure
returns on its `k`-th call).  On exhaustion the last error is wrapped as
`after n retries` (Go `fmt.Errorf("after %d retries: %w", maxRetries,
lastErr)`). -/
def mwRetryGo [Inhabited O] (n : Nat) (f : Nat → Except Err O) (cx : CtxObs) :
    Nat → Nat → Option Err → Except Err O × List MEvent
  | _, 0, last => (.error (.afterRetries n (last.getD (.msg "nil"))), [])
  | attempt, fuel + 1, _ =>
    if 0 < attempt ∧ (cx.pre attempt).isSome then
      (.error ((cx.pre attempt).getD .canceled), [])
    else
      match f attempt with
      | .ok out => (.ok out, mwWaits attempt ++ [.attempt attempt])
      | .error e =>
        match cx.post attempt with
        | some ce => (.error ce, mwWaits attempt ++ [.attempt attempt])
        | none =>
          let rest := mwRetryGo n f cx (attempt + 1) fuel (some e)
          (rest.1, mwWaits attempt ++ [.attempt attempt] ++ rest.2)

/-- Source: `core.Retry(maxRetries)` — `maxRetries + 1` loop iterations
starting at attempt 0. -/
def RetryMW [Inhabited O] (n : Nat) (f : Nat → Except Err O) (cx : CtxObs) :
    Except Err O × List MEvent :=
  mwRetryGo n f cx 0 (n + 1) none

/-- Trace of `m` consecutive Retry-middleware attempts starting at `a`. -/
def mwTraceFrom (a : Nat) : Nat → List MEvent
  | 0 => []
  | m + 1 => (mwWaits a ++ [.attempt a]) ++ mwTraceFrom (a + 1) m

/-- The error inside a failed Go `(O, error)` pair. -/
def errOf : Except Err O → Err
  | .error e => e
  | .ok _ => .msg "ok"

/-- Source: `core.InvokeFunc[I,O]`, lifted over an abstract context type and
an explicit heap state `σ` standing for the mutable state shared by the Go
closures (e.g. a shared log slice recorded into by middlewares). -/
def InvokeFn (Ctx σ I O : Type) : Type := Ctx → I → σ → Except Err O × σ

/-- Source: `core.Middleware[I,O]` — receives the context, the input and the
`next` handler, and may call `next` zero or more times. -/
def MWare (Ctx σ I O : Type) : Type :=
  Ctx → I → InvokeFn Ctx σ I O → σ → Except Err O × σ

/-- Source: `core.Chain[I,O]` — the ordered middleware list plus the
terminal (`final`) handler. -/
structure MWChain (Ctx σ I O : Type) where
  middlewares : List (MWare Ctx σ I O)
  final : InvokeFn Ctx σ I O

/-- Source: `core.Chain.buildChain(index)` — the Go recursion on the slice
index from `index` upward becomes recursion on the middleware-list suffix:
past the end it runs `final`; otherwise the middleware at the head wraps
the handler built from the tail. -/
def buildChainFrom (final : InvokeFn Ctx σ I O) :
    List (MWare Ctx σ I O) → InvokeFn Ctx σ I O
  | [] => fun c input s => final c input s
  | m :: rest => fun c input s => m c input (buildChainFrom final rest) s

/-- Source: `core.Chain.Execute` — run the handler built from index 0. -/
def MWChain.Execute (ch : MWChain Ctx σ I O) (c : Ctx) (input : I) (s : σ) :
    Except Err O × σ :=
  buildChainFrom ch.final ch.middlewares c input s

/-- A recording middleware for the ordering property: appends
`name-before` to the shared log, calls `next` once, appends `name-after`. -/
def logMW (nm : String) : MWare Ctx (List String) I O :=
  fun c input next s =>
    let p := next c input (s ++ [nm ++ "-before"])
    (p.1, p.2 ++ [nm ++ "-after"])

/-- A recording terminal handler: appends `T` to the shared log. -/
def logTerminal (f : I → Except Err O) : InvokeFn Ctx (List String) I O :=
  fun _ input s => (f input, s ++ ["T"])

/-- A short-circuiting middleware: records `B-short` and returns without
ever calling `next`. -/
def shortMW : MWare Ctx (List String) I O :=
  fun _ _ _ s => (.error (.msg "stop"), s ++ ["B-short"])

/-- A `time.Now()` / `time.Since(start)` observation pair for one
`Lambda.Invoke` call: the start timestamp and the measured elapsed time. -/
structure TimeOracle where
  now : Nat
  elapsed : Nat

/-- Source: `core.Lambda.Invoke` (lines 496-522).  The timeout-derived
context of lines 503-507 only changes when `ctx.Err()` fires, which the
`CtxObs` oracle already encodes, and the metrics update of lines 517-519
touches only the statistics record, which no claim concerns; both are
absorbed.  The function returns the populated result shell paired with the
same error that is stored in the shell. -/
def Lambda.Invoke [Inhabited O] (l : Lambda I O) (cx : CtxObs)
    (tor : TimeOracle) (input : I) : LambdaResult O × Option Err :=
  match (invokeWithRetry l.options.retries (l.invoke input) cx).1 with
  | .ok out =>
    ({ output := out, error := none
     , duration := tor.elapsed, timestamp := tor.now }, none)
  | .error e =>
    ({ output := default, error := some e
     , duration := tor.elapsed, timestamp := tor.now }, some e)

/-- Source: `invoker.Invoker[I,O]` — only the optional concurrency
semaphore is observable state. -/
structure Invoker (I O : Type) where
  semaphore : Option Nat

/-- Oracle inputs for one `Invoker.Invoke` call: the context state observed
while acquiring a semaphore slot (`some e` means `ctx.Done()` fired first
with `ctx.Err() = e`), the context observations of the inner retry loop,
and the clock observations of `Lambda.Invoke`. -/
structure InvOracle where
  semDone : Option Err
  cx : CtxObs
  tor : TimeOracle

/-- Source: `invoker.Invoker.Invoke` (lines 43-62): resolve through the
type pair's registry (`nil, not-found error` when absent), acquire a
semaphore slot when configured (`nil, ctx.Err()` when the context wins),
then delegate to `Lambda.Invoke`. -/
def Invoker.Invoke [Inhabited O] (inv : Invoker I O) (reg : Registry I O)
    (o : InvOracle) (name : String) (input : I) :
    Option (LambdaResult O) × Option Err :=
  match reg.Get name with
  | none => (none, some (.notFound name))
  | some l =>
    match inv.semaphore with
    | some _ =>
      match o.semDone with
      | some e => (none, some e)
      | none =>
        let p := l.Invoke o.cx o.tor input
        (some p.1, p.2)
    | none =>
      let p := l.Invoke o.cx o.tor input
      (some p.1, p.2)

/-- Source: `invoker.Invoker.Timeout` (lines 225-230): derives a
deadline-bound context and delegates to `Invoke`; the derived context only
shows up through the oracle's context observations, so the delegation is
direct. -/
def Invoker.Timeout [Inhabited O] (inv : Invoker I O) (reg : Registry I O)
    (o : InvOracle) (name : String) (input : I) :
    Option (LambdaResult O) × Option Err :=
  Invoker.Invoke inv reg o name input

/-- Source: `invoker.Invoker.InvokeAsync` (lines 65-85): the single value
delivered on the result channel.  On an `Invoke` error the delivered value
is a fresh shell with zero output, the error, duration 0 and `time.Now()`
(the `errNow` oracle); otherwise it is `Invoke`'s own result. -/
def Invoker.InvokeAsync [Inhabited O] (inv : Invoker I O) (reg : Registry I O)
    (o : InvOracle) (name : String) (input : I) (errNow : Nat) :
    LambdaResult O :=
  match Invoker.Invoke inv reg o name input with
  | (_, some e) =>
    { output := default, error := some e, duration := 0, timestamp := errNow }
  | (r, none) => r.getD default

/-- Request-by-request body of `invoker.Invoker.InvokeMultiple`
(lines 88-118).  The goroutines run independently and the result map is
keyed by name, so the fan-out is modelled one request at a time in the
given order, each entry depending only on its own oracle. -/
def invokeMultipleGo [Inhabited O] (inv : Invoker I O) (reg : Registry I O)
    (os : Nat → InvOracle) (errNow : Nat → Nat) :
    Nat → List (String × I) → List (String × LambdaResult O)
  | _, [] => []
  | i, (nm, inp) :: rest =>
    (match Invoker.Invoke inv reg (os i) nm inp with
     | (_, some e) =>
       (nm, { output := default, error := some e
            , duration := 0, timestamp := errNow i })
     | (r, none) => (nm, r.getD default))
      :: invokeMultipleGo inv reg os errNow (i + 1) rest

/-- Source: `invoker.Invoker.InvokeMultiple`. -/
def Invoker.InvokeMultiple [Inhabited O] (inv : Invoker I O)
    (reg : Registry I O) (os : Nat → InvOracle) (errNow : Nat → Nat)
    (reqs : List (String × I)) : List (String × LambdaResult O) :=
  invokeMultipleGo inv reg os errNow 0 reqs

/-- Loop body of `invoker.Invoker.Pipeline` (lines 121-138): `i` is the
step index, `acc` the results slice built so far.  An `Invoke`-level error
(which includes every function-level error, since `Lambda.Invoke` returns
its function error as `err` too) aborts with `nil` results and a
`pipeline failed at step i` wrap; the `result.Error != nil` branch keeps
the prefix plus the failing result. -/
def pipelineGo [Inhabited O] (inv : Invoker I O) (reg : Registry I O)
    (os : Nat → InvOracle) (name : String) :
    Nat → List I → List (LambdaResult O) →
      Option (List (LambdaResult O)) × Option Err
  | _, [], acc => (some acc, none)
  | i, input :: rest, acc =>
    match Invoker.Invoke inv reg (os i) name input with
    | (_, some e) => (none, some (.pipelineFailed i e))
    | (ro, none) =>
      let r := ro.getD default
      match r.error with
      | some fe => (some (acc ++ [r]), some fe)
      | none => pipelineGo inv reg os name (i + 1) rest (acc ++ [r])

/-- Source: `invoker.Invoker.Pipeline`. -/
def Invoker.Pipeline [Inhabited O] (inv : Invoker I O) (reg : Registry I O)
    (os : Nat → InvOracle) (name : String) (inputs : List I) :
    Option (List (LambdaResult O)) × Option Err :=
  pipelineGo inv reg os name 0 inputs []

/-- Loop body of `invoker.Invoker.Retry` (lines 191-222): before each
re-attempt, a `select` races `ctx.Done()` (observation `pre attempt`)
against the fixed `delay` timer; a call where both the transport error and
the result's own error are nil returns immediately; otherwise `lastErr`
becomes the transport error if non-nil, else the result's error.  After
exhausting the attempts it returns a populated shell wrapping `lastErr`
with a max-retries-exceeded error, paired with `lastErr` itself. -/
def invRetryGo [Inhabited O] (inv : Invoker I O) (reg : Registry I O)
    (os : Nat → InvOracle) (pre : Nat → Option Err) (name : String)
    (input : I) (now : Nat) :
    Nat → Nat → Option Err → Option (LambdaResult O) × Option Err
  | _, 0, last =>
    (some { output := default
          , error := some (.maxRetriesExceeded (last.getD (.msg "nil")))
          , duration := 0, timestamp := now }, last)
  | attempt, fuel + 1, _ =>
    if 0 < attempt ∧ (pre attempt).isSome then
      (none, some ((pre attempt).getD .canceled))
    else
      let p := Invoker.Invoke inv reg (os attempt) name input
      let r := p.1.getD default
      if p.2 = none ∧ r.error = none then (p.1, none)
      else
        invRetryGo inv reg os pre name input now (attempt + 1) fuel
          (match p.2 with
           | some e => some e
           | none => r.error)

/-- Source: `invoker.Invoker.Retry` — `maxRetries + 1` attempts starting at
attempt 0 with `lastErr = nil`. -/
def Invoker.Retry [Inhabited O] (inv : Invoker I O) (reg : Registry I O)
    (os : Nat → InvOracle) (pre : Nat → Option Err) (name : String)
    (input : I) (maxRetries : Nat) (now : Nat) :
    Option (LambdaResult O) × Option Err :=
  invRetryGo inv reg os pre name input now 0 (maxRetries + 1) none

/-- The error a single `Invoker.Retry` attempt `j` contributes to `lastErr`:
the transport error when non-nil, otherwise the result's own error; `none`
exactly when the attempt is the immediately-returned success. -/
def invAttemptErr [Inhabited O] (inv : Invoker I O) (reg : Registry I O)
    (os : Nat → InvOracle) (name : String) (input : I) (j : Nat) :
    Option Err :=
  match Invoker.Invoke inv reg (os j) name input with
  | (_, some e) => some e
  | (ro, none) => (ro.getD default).error

/-- The results slice `Invoker.Pipeline` builds for inputs starting at step
index `i` when every invocation comes back error-free. -/
def resultsFrom [Inhabited O] (inv : Invoker I O) (reg : Registry I O)
    (os : Nat → InvOracle) (name : String) :
    Nat → List I → List (LambdaResult O)
  | _, [] => []
  | i, x :: xs =>
    ((Invoker.Invoke inv reg (os i) name x).1.getD default)
      :: resultsFrom inv reg os name (i + 1) xs

/-- A zeroed clock oracle. -/
def torZero : TimeOracle := { now := 0, elapsed := 0 }

/-- A quiet invocation oracle: semaphore slot free, context never done,
zeroed clock. -/
def oracle0 : InvOracle := { semDone := none, cx := cleanCtx, tor := torZero }

/-- The quiet oracle for every pipeline / fan-out / retry step. -/
def os0 : Nat → InvOracle := fun _ => oracle0

/-- A context never done at any retry backoff of `Invoker.Retry`. -/
def pre0 : Nat → Option Err := fun _ => none

/-- An invoker without a configured concurrency limit. -/
def invPlain : Invoker Nat Nat := { semaphore := none }

/-- The empty `Nat → Nat` registry. -/
def emptyRegN : Registry Nat Nat := Registry.empty

/-- Concrete Unit `f`: the identity function. -/
def lamA : Lambda Nat Nat :=
  { name := "f", invoke := fun i _ => .ok i, options := DefaultOptions }

/-- A second, different Unit also named `f`. -/
def lamB : Lambda Nat Nat :=
  { name := "f", invoke := fun i _ => .ok (i + 1), options := DefaultOptions }

/-- Registry holding the concrete Unit `f` (backed by `lamA`). -/
def regA : Registry Nat Nat := (Registry.empty.Register lamA "int" "int" 0).1

/-- Registry holding the concrete Unit `f` plus a factory for the same
name producing `lamB`. -/
def regAB : Registry Nat Nat := regA.RegisterWithConstructor "f" (fun _ => lamB)

/-- A Unit that doubles its input but fails on input 2. -/
def lamMix : Lambda Nat Nat :=
  { name := "mix"
  , invoke := fun i _ => if i = 2 then .error (.msg "boom") else .ok (2 * i)
  , options := DefaultOptions }

/-- Registry holding `lamMix` under the name `mix`. -/
def regMix : Registry Nat Nat := (Registry.empty.Register lamMix "int" "int" 0).1

/-- A function failing on attempts 0 and 1 and succeeding on attempt 2. -/
def exF : Nat → Except Err Nat := fun k => if k < 2 then .error (.msg "fail") else .ok 42

/-- A function that fails on every attempt. -/
def failF : Nat → Except Err Nat := fun _ => .error (.msg "e")

theorem mapLookup_erase_self (m : List (String × α)) (k : String) :
    mapLookup (mapErase m k) k = none := by
  induction m with
  | nil => rfl
  | cons p rest ih =>
    obtain ⟨k', v⟩ := p
    by_cases h : k' = k
    · simpa [mapErase, h] using ih
    · simpa [mapErase, mapLookup, h] using ih

theorem mapLookup_erase_ne (m : List (String × α)) (k k' : String) (h : k' ≠ k) :
    mapLookup (mapErase m k) k' = mapLookup m k' := by
  have hk : k ≠ k' := fun hkk => h hkk.symm
  induction m with
  | nil => rfl
  | cons p rest ih =>
    obtain ⟨q, v⟩ := p
    by_cases hp : q = k
    · simp [mapErase, mapLookup, hp, hk, ih]
    · by_cases hq : q = k'
      · simp [mapErase, mapLookup, hp, hq, h]
      · simp [mapErase, mapLookup, hp, hq, ih]

theorem mapLookup_append_right (m m' : List (String × α)) (k : String)
    (h : mapLookup m k = none) : mapLookup (m ++ m') k = mapLookup m' k := by
  induction m with
  | nil => rfl
  | cons p rest ih =>
    obtain ⟨q, v⟩ := p
    by_cases hp : q = k
    · simp [mapLookup, hp] at h
    · simp [mapLookup, hp] at h ⊢
      exact ih h

theorem mapLookup_singleton_ne (k k' : String) (v : α) (h : k' ≠ k) :
    mapLookup [(k, v)] k' = none := by
  have : k ≠ k' := fun hk => h hk.symm
  simp [mapLookup, this]

theorem mapLookup_insert_self (m : List (String × α)) (k : String) (v : α) :
    mapLookup (mapInsert m k v) k = some v := by
  unfold mapInsert
  rw [mapLookup_append_right _ _ _ (mapLookup_erase_self m k)]
  simp [mapLookup]

theorem mapLookup_insert_ne (m : List (String × α)) (k k' : String) (v : α) (h : k' ≠ k) :
    mapLookup (mapInsert m k v) k' = mapLookup m k' := by
  have hk : k ≠ k' := fun hkk => h hkk.symm
  unfold mapInsert
  induction m with
  | nil => simpa [mapLookup] using mapLookup_singleton_ne k k' v h
  | cons p rest ih =>
    obtain ⟨q, w⟩ := p
    by_cases hp : q = k
    · simp [mapErase, mapLookup, hp, hk] at ih ⊢
      exact ih
    · by_cases hq : q = k'
      · simp [mapErase, mapLookup, hp, hq, h]
      · simp [mapErase, mapLookup, hp, hq] at ih ⊢
        exact ih

theorem mem_keys_of_mapLookup (m : List (String × α)) (k : String) (v : α)
    (h : mapLookup m k = some v) : k ∈ m.map Prod.fst := by
  induction m with
  | nil => simp [mapLookup] at h
  | cons p rest ih =>
    by_cases hp : p.1 = k
    · simp [hp]
    · simp [mapLookup, hp] at h
      simp [ih h]

theorem getRegistryAt_put_self (g : GlobalStore I O) (k : String) (r : Registry I O) :
    getRegistryAt (putRegistryAt g k r) k = r := by
  simp [getRegistryAt, putRegistryAt, mapLookup_insert_self]

theorem getRegistryAt_put_ne (g : GlobalStore I O) (k k' : String) (r : Registry I O)
    (h : k' ≠ k) : getRegistryAt (putRegistryAt g k r) k' = getRegistryAt g k' := by
  simp [getRegistryAt, putRegistryAt, mapLookup_insert_ne _ _ _ _ h]

theorem retryTraceFrom_zero (a : Nat) : retryTraceFrom a 0 = [] := rfl

theorem retryTraceFrom_succ (a n : Nat) :
    retryTraceFrom a (n + 1) =
      (retryWaits a ++ [.attempt a]) ++ retryTraceFrom (a + 1) n := rfl

theorem attemptEvents_retryTraceFrom (a n : Nat) :
    attemptEvents (retryTraceFrom a n) = n := by
  induction n generalizing a with
  | zero => rfl
  | succ n ih =>
    unfold attemptEvents at ih ⊢
    rw [retryTraceFrom_succ, List.countP_append, ih]
    unfold retryWaits
    by_cases h : a = 0 <;> simp [h, isAttemptEv] <;> omega

/-- Every run of the retry loop produces a trace of some number `n ≤ fuel`
of consecutive attempts starting at `a`, each re-attempt preceded by its
linear-backoff wait. -/
theorem retryGo_trace_shape [Inhabited O] (f : Nat → Except Err O) (cx : CtxObs) :
    ∀ fuel a last, ∃ n, n ≤ fuel ∧ (retryGo f cx a fuel last).2 = retryTraceFrom a n := by
  intro fuel
  induction fuel with
  | zero => intro a last; exact ⟨0, Nat.le_refl 0, rfl⟩
  | succ m ih =>
    intro a last
    by_cases hpre : 0 < a ∧ (cx.pre a).isSome
    · refine ⟨0, Nat.zero_le _, ?_⟩
      simp [retryGo, hpre, retryTraceFrom_zero]
    · cases hf : f a with
      | ok out =>
        refine ⟨1, Nat.succ_le_succ (Nat.zero_le m), ?_⟩
        simp [retryGo, hpre, hf, retryTraceFrom_succ, retryTraceFrom_zero]
      | error e =>
        cases hpost : cx.post a with
        | some ce =>
          refine ⟨1, Nat.succ_le_succ (Nat.zero_le m), ?_⟩
          simp [retryGo, hpre, hf, hpost, retryTraceFrom_succ, retryTraceFrom_zero]
        | none =>
          obtain ⟨n, hn, htr⟩ := ih (a + 1) (some e)
          refine ⟨n + 1, Nat.succ_le_succ hn, ?_⟩
          simp [retryGo, hpre, hf, hpost, htr, retryTraceFrom_succ]

/-- If attempts `a, a+1, ..., a+k-1` all fail with the context never done,
the context stays quiet through attempt `a+k`, and attempt `a+k` succeeds
with `v`, the loop returns `v` after exactly `k+1` further attempts. -/
theorem retryGo_clean_ok [Inhabited O] (f : Nat → Except Err O) (cx : CtxObs)
    (v : O) :
    ∀ k a fuel last, k < fuel →
      (∀ j, j < k → isOkE (f (a + j)) = false ∧ cx.post (a + j) = none) →
      (∀ j, j ≤ k → 0 < a + j → cx.pre (a + j) = none) →
      f (a + k) = .ok v →
      retryGo f cx a fuel last = (.ok v, retryTraceFrom a (k + 1)) := by
  intro k
  induction k with
  | zero =>
    intro a fuel last hfuel _ hpre hok
    obtain ⟨m, rfl⟩ := Nat.exists_eq_add_of_lt hfuel
    have hprea : ¬(0 < a ∧ (cx.pre a).isSome) := by
      rintro ⟨ha, hs⟩
      have hp0 := hpre 0 (Nat.le_refl 0) (by simpa using ha)
      rw [Nat.add_zero] at hp0
      rw [hp0] at hs
      simp at hs
    simp only [Nat.add_zero] at hok
    simp [retryGo, hprea, hok, retryTraceFrom_succ, retryTraceFrom_zero]
  | succ k ih =>
    intro a fuel last hfuel hclean hpre hok
    obtain ⟨m, rfl⟩ := Nat.exists_eq_add_of_lt hfuel
    have hprea : ¬(0 < a ∧ (cx.pre a).isSome) := by
      rintro ⟨ha, hs⟩
      have hp0 := hpre 0 (Nat.zero_le _) (by simpa using ha)
      rw [Nat.add_zero] at hp0
      rw [hp0] at hs
      simp at hs
    have hfa : isOkE (f a) = false := by simpa using (hclean 0 (Nat.succ_pos k)).1
    have hposta : cx.post a = none := by simpa using (hclean 0 (Nat.succ_pos k)).2
    cases hf : f a with
    | ok out => rw [hf] at hfa; simp [isOkE] at hfa
    | error e =>
      have hrec : retryGo f cx (a + 1) (k + 1 + m) (some e)
          = (.ok v, retryTraceFrom (a + 1) (k + 1)) := by
        apply ih
        · omega
        · intro j hj
          have hc := hclean (j + 1) (by omega)
          rw [show a + (j + 1) = a + 1 + j by omega] at hc
          exact hc
        · intro j hj hpos
          have hp := hpre (j + 1) (by omega) (by omega)
          rw [show a + (j + 1) = a + 1 + j by omega] at hp
          exact hp
        · rw [show a + 1 + k = a + (k + 1) by omega]
          exact hok
      show retryGo f cx a (k + 1 + m + 1) last = _
      simp [retryGo, hprea, hf, hposta, hrec, retryTraceFrom_succ,
        List.append_assoc]

/-- If attempts `a, ..., a+k-1` fail cleanly and the context is seen done
with error `e` in the `select` before the backoff wait of attempt `a+k`,
the loop stops immediately (no wait, no further attempt) with `e`. -/
theorem retryGo_clean_pre_abort [Inhabited O] (f : Nat → Except Err O)
    (cx : CtxObs) (e : Err) :
    ∀ k a fuel last, k < fuel →
      (∀ j, j < k → isOkE (f (a + j)) = false ∧ cx.post (a + j) = none) →
      (∀ j, j < k → 0 < a + j → cx.pre (a + j) = none) →
      0 < a + k → cx.pre (a + k) = some e →
      retryGo f cx a fuel last = (.error e, retryTraceFrom a k) := by
  intro k
  induction k with
  | zero =>
    intro a fuel last hfuel _ _ hpos hsome
    obtain ⟨m, rfl⟩ := Nat.exists_eq_add_of_lt hfuel
    rw [Nat.add_zero] at hpos hsome
    have hc : 0 < a ∧ (cx.pre a).isSome := ⟨hpos, by rw [hsome]; rfl⟩
    simp [retryGo, hc, hsome, retryTraceFrom_zero]
  | succ k ih =>
    intro a fuel last hfuel hclean hpre hpos hsome
    obtain ⟨m, rfl⟩ := Nat.exists_eq_add_of_lt hfuel
    have hprea : ¬(0 < a ∧ (cx.pre a).isSome) := by
      rintro ⟨ha, hs⟩
      have hp0 := hpre 0 (Nat.succ_pos k) (by simpa using ha)
      rw [Nat.add_zero] at hp0
      rw [hp0] at hs
      simp at hs
    have hfa : isOkE (f a) = false := by simpa using (hclean 0 (Nat.succ_pos k)).1
    have hposta : cx.post a = none := by simpa using (hclean 0 (Nat.succ_pos k)).2
    cases hf : f a with
    | ok out => rw [hf] at hfa; simp [isOkE] at hfa
    | error e' =>
      have hrec : retryGo f cx (a + 1) (k + 1 + m) (some e')
          = (.error e, retryTraceFrom (a + 1) k) := by
        apply ih
        · omega
        · intro j hj
          have hc := hclean (j + 1) (by omega)
          rw [show a + (j + 1) = a + 1 + j by omega] at hc
          exact hc
        · intro j hj hjpos
          have hp := hpre (j + 1) (by omega) (by omega)
          rw [show a + (j + 1) = a + 1 + j by omega] at hp
          exact hp
        · omega
        · rw [show a + 1 + k = a + (k + 1) by omega]
          exact hsome
      show retryGo f cx a (k + 1 + m + 1) last = _
      simp [retryGo, hprea, hf, hposta, hrec, retryTraceFrom_succ,
        List.append_assoc]

/-- If attempts `a, ..., a+k-1` fail cleanly, attempt `a+k` fails, and
`ctx.Err()` is non-nil right after it, the loop surfaces the context error
`ce` instead of the function error and never retries past it. -/
theorem retryGo_clean_post_abort [Inhabited O] (f : Nat → Except Err O)
    (cx : CtxObs) (e ce : Err) :
    ∀ k a fuel last, k < fuel →
      (∀ j, j < k → isOkE (f (a + j)) = false ∧ cx.post (a + j) = none) →
      (∀ j, j ≤ k → 0 < a + j → cx.pre (a + j) = none) →
      f (a + k) = .error e → cx.post (a + k) = some ce →
      retryGo f cx a fuel last = (.error ce, retryTraceFrom a (k + 1)) := by
  intro k
  induction k with
  | zero =>
    intro a fuel last hfuel _ hpre hferr hpost
    obtain ⟨m, rfl⟩ := Nat.exists_eq_add_of_lt hfuel
    rw [Nat.add_zero] at hferr hpost
    have hprea : ¬(0 < a ∧ (cx.pre a).isSome) := by
      rintro ⟨ha, hs⟩
      have hp0 := hpre 0 (Nat.le_refl 0) (by simpa using ha)
      rw [Nat.add_zero] at hp0
      rw [hp0] at hs
      simp at hs
    simp [retryGo, hprea, hferr, hpost, retryTraceFrom_succ, retryTraceFrom_zero]
  | succ k ih =>
    intro a fuel last hfuel hclean hpre hferr hpost
    obtain ⟨m, rfl⟩ := Nat.exists_eq_add_of_lt hfuel
    have hprea : ¬(0 < a ∧ (cx.pre a).isSome) := by
      rintro ⟨ha, hs⟩
      have hp0 := hpre 0 (Nat.zero_le _) (by simpa using ha)
      rw [Nat.add_zero] at hp0
      rw [hp0] at hs
      simp at hs
    have hfa : isOkE (f a) = false := by simpa using (hclean 0 (Nat.succ_pos k)).1
    have hposta : cx.post a = none := by simpa using (hclean 0 (Nat.succ_pos k)).2
    cases hf : f a with
    | ok out => rw [hf] at hfa; simp [isOkE] at hfa
    | error e' =>
      have hrec : retryGo f cx (a + 1) (k + 1 + m) (some e')
          = (.error ce, retryTraceFrom (a + 1) (k + 1)) := by
        apply ih
        · omega
        · intro j hj
          have hc := hclean (j + 1) (by omega)
          rw [show a + (j + 1) = a + 1 + j by omega] at hc
          exact hc
        · intro j hj hjpos
          have hp := hpre (j + 1) (by omega) (by omega)
          rw [show a + (j + 1) = a + 1 + j by omega] at hp
          exact hp
        · rw [show a + 1 + k = a + (k + 1) by omega]
          exact hferr
        · rw [show a + 1 + k = a + (k + 1) by omega]
          exact hpost
      show retryGo f cx a (k + 1 + m + 1) last = _
      simp [retryGo, hprea, hf, hposta, hrec, retryTraceFrom_succ,
        List.append_assoc]

/-- Retry middleware: a clean failing run up to a success at attempt `a+k`
returns the successful `next` result unchanged after `k+1` attempts. -/
theorem mwRetryGo_clean_ok [Inhabited O] (n : Nat) (f : Nat → Except Err O)
    (cx : CtxObs) (v : O) :
    ∀ k a fuel last, k < fuel →
      (∀ j, j < k → isOkE (f (a + j)) = false ∧ cx.post (a + j) = none) →
      (∀ j, j ≤ k → 0 < a + j → cx.pre (a + j) = none) →
      f (a + k) = .ok v →
      mwRetryGo n f cx a fuel last = (.ok v, mwTraceFrom a (k + 1)) := by
  intro k
  induction k with
  | zero =>
    intro a fuel last hfuel _ hpre hok
    obtain ⟨m, rfl⟩ := Nat.exists_eq_add_of_lt hfuel
    have hprea : ¬(0 < a ∧ (cx.pre a).isSome) := by
      rintro ⟨ha, hs⟩
      have hp0 := hpre 0 (Nat.le_refl 0) (by simpa using ha)
      rw [Nat.add_zero] at hp0
      rw [hp0] at hs
      simp at hs
    simp only [Nat.add_zero] at hok
    simp [mwRetryGo, hprea, hok, mwTraceFrom]
  | succ k ih =>
    intro a fuel last hfuel hclean hpre hok
    obtain ⟨m, rfl⟩ := Nat.exists_eq_add_of_lt hfuel
    have hprea : ¬(0 < a ∧ (cx.pre a).isSome) := by
      rintro ⟨ha, hs⟩
      have hp0 := hpre 0 (Nat.zero_le _) (by simpa using ha)
      rw [Nat.add_zero] at hp0
      rw [hp0] at hs
      simp at hs
    have hfa : isOkE (f a) = false := by simpa using (hclean 0 (Nat.succ_pos k)).1
    have hposta : cx.post a = none := by simpa using (hclean 0 (Nat.succ_pos k)).2
    cases hf : f a with
    | ok out => rw [hf] at hfa; simp [isOkE] at hfa
    | error e =>
      have hrec : mwRetryGo n f cx (a + 1) (k + 1 + m) (some e)
          = (.ok v, mwTraceFrom (a + 1) (k + 1)) := by
        apply ih
        · omega
        · intro j hj
          have hc := hclean (j + 1) (by omega)
          rw [show a + (j + 1) = a + 1 + j by omega] at hc
          exact hc
        · intro j hj hpos
          have hp := hpre (j + 1) (by omega) (by omega)
          rw [show a + (j + 1) = a + 1 + j by omega] at hp
          exact hp
        · rw [show a + 1 + k = a + (k + 1) by omega]
          exact hok
      show mwRetryGo n f cx a (k + 1 + m + 1) last = _
      simp [mwRetryGo, hprea, hf, hposta, hrec, mwTraceFrom,
        List.append_assoc]

/-- Retry middleware: the context seen done before the backoff of attempt
`a+k` aborts immediately with the context error. -/
theorem mwRetryGo_clean_pre_abort [Inhabited O] (n : Nat)
    (f : Nat → Except Err O) (cx : CtxObs) (e : Err) :
    ∀ k a fuel last, k < fuel →
      (∀ j, j < k → isOkE (f (a + j)) = false ∧ cx.post (a + j) = none) →
      (∀ j, j < k → 0 < a + j → cx.pre (a + j) = none) →
      0 < a + k → cx.pre (a + k) = some e →
      mwRetryGo n f cx a fuel last = (.error e, mwTraceFrom a k) := by
  intro k
  induction k with
  | zero =>
    intro a fuel last hfuel _ _ hpos hsome
    obtain ⟨m, rfl⟩ := Nat.exists_eq_add_of_lt hfuel
    rw [Nat.add_zero] at hpos hsome
    have hc : 0 < a ∧ (cx.pre a).isSome := ⟨hpos, by rw [hsome]; rfl⟩
    simp [mwRetryGo, hc, hsome, mwTraceFrom]
  | succ k ih =>
    intro a fuel last hfuel hclean hpre hpos hsome
    obtain ⟨m, rfl⟩ := Nat.exists_eq_add_of_lt hfuel
    have hprea : ¬(0 < a ∧ (cx.pre a).isSome) := by
      rintro ⟨ha, hs⟩
      have hp0 := hpre 0 (Nat.succ_pos k) (by simpa using ha)
      rw [Nat.add_zero] at hp0
      rw [hp0] at hs
      simp at hs
    have hfa : isOkE (f a) = false := by simpa using (hclean 0 (Nat.succ_pos k)).1
    have hposta : cx.post a = none := by simpa using (hclean 0 (Nat.succ_pos k)).2
    cases hf : f a with
    | ok out => rw [hf] at hfa; simp [isOkE] at hfa
    | error e' =>
      have hrec : mwRetryGo n f cx (a + 1) (k + 1 + m) (some e')
          = (.error e, mwTraceFrom (a + 1) k) := by
        apply ih
        · omega
        · intro j hj
          have hc := hclean (j + 1) (by omega)
          rw [show a + (j + 1) = a + 1 + j by omega] at hc
          exact hc
        · intro j hj hjpos
          have hp := hpre (j + 1) (by omega) (by omega)
          rw [show a + (j + 1) = a + 1 + j by omega] at hp
          exact hp
        · omega
        · rw [show a + 1 + k = a + (k + 1) by omega]
          exact hsome
      show mwRetryGo n f cx a (k + 1 + m + 1) last = _
      simp [mwRetryGo, hprea, hf, hposta, hrec, mwTraceFrom,
        List.append_assoc]

/-- Retry middleware: a context error right after a failed attempt is
surfaced as-is and never retried past. -/
theorem mwRetryGo_clean_post_abort [Inhabited O] (n : Nat)
    (f : Nat → Except Err O) (cx : CtxObs) (e ce : Err) :
    ∀ k a fuel last, k < fuel →
      (∀ j, j < k → isOkE (f (a + j)) = false ∧ cx.post (a + j) = none) →
      (∀ j, j ≤ k → 0 < a + j → cx.pre (a + j) = none) →
      f (a + k) = .error e → cx.post (a + k) = some ce →
      mwRetryGo n f cx a fuel last = (.error ce, mwTraceFrom a (k + 1)) := by
  intro k
  induction k with
  | zero =>
    intro a fuel last hfuel _ hpre hferr hpost
    obtain ⟨m, rfl⟩ := Nat.exists_eq_add_of_lt hfuel
    rw [Nat.add_zero] at hferr hpost
    have hprea : ¬(0 < a ∧ (cx.pre a).isSome) := by
      rintro ⟨ha, hs⟩
      have hp0 := hpre 0 (Nat.le_refl 0) (by simpa using ha)
      rw [Nat.add_zero] at hp0
      rw [hp0] at hs
      simp at hs
    simp [mwRetryGo, hprea, hferr, hpost, mwTraceFrom]
  | succ k ih =>
    intro a fuel last hfuel hclean hpre hferr hpost
    obtain ⟨m, rfl⟩ := Nat.exists_eq_add_of_lt hfuel
    have hprea : ¬(0 < a ∧ (cx.pre a).isSome) := by
      rintro ⟨ha, hs⟩
      have hp0 := hpre 0 (Nat.zero_le _) (by simpa using ha)
      rw [Nat.add_zero] at hp0
      rw [hp0] at hs
      simp at hs
    have hfa : isOkE (f a) = false := by simpa using (hclean 0 (Nat.succ_pos k)).1
    have hposta : cx.post a = none := by simpa using (hclean 0 (Nat.succ_pos k)).2
    cases hf : f a with
    | ok out => rw [hf] at hfa; simp [isOkE] at hfa
    | error e' =>
      have hrec : mwRetryGo n f cx (a + 1) (k + 1 + m) (some e')
          = (.error ce, mwTraceFrom (a + 1) (k + 1)) := by
        apply ih
        · omega
        · intro j hj
          have hc := hclean (j + 1) (by omega)
          rw [show a + (j + 1) = a + 1 + j by omega] at hc
          exact hc
        · intro j hj hjpos
          have hp := hpre (j + 1) (by omega) (by omega)
          rw [show a + (j + 1) = a + 1 + j by omega] at hp
          exact hp
        · rw [show a + 1 + k = a + (k + 1) by omega]
          exact hferr
        · rw [show a + 1 + k = a + (k + 1) by omega]
          exact hpost
      show mwRetryGo n f cx a (k + 1 + m + 1) last = _
      simp [mwRetryGo, hprea, hf, hposta, hrec, mwTraceFrom,
        List.append_assoc]

/-- Retry middleware: when every remaining attempt fails with the context
never done, the loop returns the last error wrapped as
`after n retries: last`. -/
theorem mwRetryGo_clean_exhaust [Inhabited O] (n : Nat)
    (f : Nat → Except Err O) (cx : CtxObs) :
    ∀ fuel a last, 0 < fuel →
      (∀ j, j < fuel → isOkE (f (a + j)) = false ∧ cx.post (a + j) = none) →
      (∀ j, j < fuel → 0 < a + j → cx.pre (a + j) = none) →
      mwRetryGo n f cx a fuel last =
        (.error (.afterRetries n (errOf (f (a + fuel - 1)))), mwTraceFrom a fuel) := by
  intro fuel
  induction fuel with
  | zero => intro a last h; omega
  | succ m ih =>
    intro a last _ hclean hpre
    have hprea : ¬(0 < a ∧ (cx.pre a).isSome) := by
      rintro ⟨ha, hs⟩
      have hp0 := hpre 0 (Nat.succ_pos m) (by simpa using ha)
      rw [Nat.add_zero] at hp0
      rw [hp0] at hs
      simp at hs
    have hfa : isOkE (f a) = false := by simpa using (hclean 0 (Nat.succ_pos m)).1
    have hposta : cx.post a = none := by simpa using (hclean 0 (Nat.succ_pos m)).2
    cases hf : f a with
    | ok out => rw [hf] at hfa; simp [isOkE] at hfa
    | error e =>
      cases m with
      | zero =>
        simp [mwRetryGo, hprea, hf, hposta, mwTraceFrom, errOf]
      | succ m' =>
        have hrec : mwRetryGo n f cx (a + 1) (m' + 1) (some e)
            = (.error (.afterRetries n (errOf (f (a + 1 + (m' + 1) - 1)))),
               mwTraceFrom (a + 1) (m' + 1)) := by
          apply ih
          · omega
          · intro j hj
            have hc := hclean (j + 1) (by omega)
            rw [show a + (j + 1) = a + 1 + j by omega] at hc
            exact hc
          · intro j hj hjpos
            have hp := hpre (j + 1) (by omega) (by omega)
            rw [show a + (j + 1) = a + 1 + j by omega] at hp
            exact hp
        have hidx : a + 1 + (m' + 1) - 1 = a + (m' + 1 + 1) - 1 := by omega
        rw [hidx] at hrec
        have hstep : mwRetryGo n f cx a (m' + 1 + 1) last
            = ((mwRetryGo n f cx (a + 1) (m' + 1) (some e)).1,
               mwWaits a ++ [.attempt a] ++
                 (mwRetryGo n f cx (a + 1) (m' + 1) (some e)).2) := by
          simp [mwRetryGo, hprea, hf, hposta]
        rw [hstep, hrec]
        simp [mwTraceFrom, List.append_assoc]

/-- Whenever `Invoker.Invoke` reports a nil error, the result pointer is
populated and its own error field is nil too — `Lambda.Invoke` returns the
same error in both positions, so the invoker never produces a successful
transport pair carrying a function-level failure. -/
theorem invoke_ok_pairs [Inhabited O] (inv : Invoker I O) (reg : Registry I O)
    (o : InvOracle) (name : String) (input : I)
    (h : (Invoker.Invoke inv reg o name input).2 = none) :
    ∃ r, (Invoker.Invoke inv reg o name input).1 = some r ∧ r.error = none := by
  revert h
  unfold Invoker.Invoke
  cases hg : reg.Get name with
  | none => intro h; simp at h
  | some l =>
    cases hs : inv.semaphore with
    | none =>
      intro h
      have h' : (l.Invoke o.cx o.tor input).2 = none := h
      refine ⟨(l.Invoke o.cx o.tor input).1, rfl, ?_⟩
      unfold Lambda.Invoke at h' ⊢
      cases hr : (invokeWithRetry l.options.retries (l.invoke input) o.cx).1 with
      | ok out => rfl
      | error e => rw [hr] at h'; simp at h'
    | some cap =>
      cases hd : o.semDone with
      | some e => intro h; simp at h
      | none =>
        intro h
        have h' : (l.Invoke o.cx o.tor input).2 = none := h
        refine ⟨(l.Invoke o.cx o.tor input).1, rfl, ?_⟩
        unfold Lambda.Invoke at h' ⊢
        cases hr : (invokeWithRetry l.options.retries (l.invoke input) o.cx).1 with
        | ok out => rfl
        | error e => rw [hr] at h'; simp at h'

/-- A successful registration inserts the Unit and its metadata. -/
theorem register_success {I O : Type} (r : Registry I O) (l : Lambda I O)
    (inT outT : String) (now : Nat)
    (h : mapLookup r.lambdas l.GetName = none) :
    r.Register l inT outT now
      = ({ r with
            lambdas := mapInsert r.lambdas l.GetName l
          , meta := mapInsert r.meta l.GetName (l.GetMetaAt inT outT now) },
         none) := by
  have hs : ¬((mapLookup r.lambdas l.GetName).isSome = true) := by rw [h]; simp
  unfold Registry.Register
  rw [if_neg hs]

/-- C4.  Registering a Unit whose name already exists as a concrete Unit in
the same type pair fails with the duplicate-name error and leaves the
registry completely unchanged: the call returns the original registry
record, the previously registered Unit is still returned by `Get`, and its
metadata is untouched. -/
theorem register_duplicate_atomic {I O : Type} (r : Registry I O)
    (l l0 : Lambda I O) (inT outT : String) (now : Nat)
    (h : mapLookup r.lambdas l.GetName = some l0) :
    r.Register l inT outT now = (r, some (.duplicate l.GetName)) ∧
    (r.Register l inT outT now).1.Get l.GetName = some l0 ∧
    (r.Register l inT outT now).1.GetMeta l.GetName = r.GetMeta l.GetName := by
  have hs : (mapLookup r.lambdas l.GetName).isSome = true := by rw [h]; rfl
  have h1 : r.Register l inT outT now = (r, some (.duplicate l.GetName)) := by
    unfold Registry.Register
    rw [if_pos hs]
  refine ⟨h1, ?_, ?_⟩
  · rw [h1]; exact h
  · rw [h1]

/-- Witness for C4 at a concrete registry: re-registering the name `f`
fails with the duplicate error and `lamA` stays retrievable. -/
theorem register_duplicate_atomic_witness :
    regA.Register lamB "int" "int" 5 = (regA, some (.duplicate "f")) ∧
    (regA.Register lamB "int" "int" 5).1.Get "f" = some lamA :=
  ⟨(register_duplicate_atomic regA lamB lamA "int" "int" 5 rfl).1,
   (register_duplicate_atomic regA lamB lamA "int" "int" 5 rfl).2.1⟩

/-- C6.  Get after a successful Register returns exactly the registered
Unit under its name (identity round-trip), and `Get` never constructs on
the fly: a name present only as a stored factory (registered via
`RegisterWithConstructor` and never built) is not found. -/
theorem get_register_roundtrip {I O : Type} :
    (∀ (r : Registry I O) (l : Lambda I O) (inT outT : String) (now : Nat)
       (r' : Registry I O) (e : Option Err),
        r.Register l inT outT now = (r', e) → e = none →
        r'.Get l.GetName = some l) ∧
    (∀ (r : Registry I O) (name : String) (ctor : Unit → Lambda I O),
        mapLookup r.lambdas name = none →
        (r.RegisterWithConstructor name ctor).Get name = none) := by
  constructor
  · intro r l inT outT now r' e hreg he
    subst he
    by_cases hs : mapLookup r.lambdas l.GetName = none
    · rw [register_success r l inT outT now hs] at hreg
      rw [Prod.mk.injEq] at hreg
      obtain ⟨hr', -⟩ := hreg
      rw [← hr']
      exact mapLookup_insert_self _ _ _
    · exfalso
      have hss : (mapLookup r.lambdas l.GetName).isSome = true := by
        cases hx : mapLookup r.lambdas l.GetName with
        | none => exact absurd hx hs
        | some v => rfl
      unfold Registry.Register at hreg
      rw [if_pos hss] at hreg
      rw [Prod.mk.injEq] at hreg
      exact Option.noConfusion hreg.2
  · intro r name ctor h
    exact h

/-- Witness for C6: `Get` finds `lamA` after it was registered, and the
factory-only name `g` is not found. -/
theorem get_register_roundtrip_witness :
    regA.Get "f" = some lamA ∧
    (Registry.empty.RegisterWithConstructor "g" (fun _ => lamB)).Get "g" = none :=
  ⟨(@get_register_roundtrip Nat Nat).1 Registry.empty lamA "int" "int" 0 regA
      none rfl rfl,
   (@get_register_roundtrip Nat Nat).2 Registry.empty "g" (fun _ => lamB) rfl⟩

/-- C5.  Two Units with the same string name under two different type pairs
(distinct `registryKey` strings) register independently and each resolves
only through its own type pair: after both registrations, the pair-1 lookup
returns the pair-1 Unit, the pair-2 lookup returns the pair-2 Unit, and
before the second registration the pair-2 lookup finds nothing. -/
theorem type_pair_isolation {I O : Type} (g : GlobalStore I O)
    (i1 o1 i2 o2 n : String) (l1 l2 : Lambda I O) (t1 t2 : Nat)
    (hk : registryKey i1 o1 ≠ registryKey i2 o2)
    (hn1 : l1.GetName = n) (hn2 : l2.GetName = n)
    (h1 : mapLookup (getRegistryAt g (registryKey i1 o1)).lambdas n = none)
    (h2 : mapLookup (getRegistryAt g (registryKey i2 o2)).lambdas n = none) :
    (registerLambdaG g i1 o1 l1 t1).2 = none ∧
    (registerLambdaG (registerLambdaG g i1 o1 l1 t1).1 i2 o2 l2 t2).2 = none ∧
    getLambdaG (registerLambdaG (registerLambdaG g i1 o1 l1 t1).1 i2 o2 l2 t2).1
      i1 o1 n = some l1 ∧
    getLambdaG (registerLambdaG (registerLambdaG g i1 o1 l1 t1).1 i2 o2 l2 t2).1
      i2 o2 n = some l2 ∧
    getLambdaG (registerLambdaG g i1 o1 l1 t1).1 i2 o2 n = none := by
  have hk2 : registryKey i2 o2 ≠ registryKey i1 o1 := fun h => hk h.symm
  have hs1 : mapLookup (getRegistryAt g (registryKey i1 o1)).lambdas l1.GetName
      = none := by rw [hn1]; exact h1
  have hr1 := register_success (getRegistryAt g (registryKey i1 o1)) l1 i1 o1 t1 hs1
  have hget2 : getRegistryAt
        (putRegistryAt g (registryKey i1 o1)
          ((getRegistryAt g (registryKey i1 o1)).Register l1 i1 o1 t1).1)
        (registryKey i2 o2)
      = getRegistryAt g (registryKey i2 o2) :=
    getRegistryAt_put_ne _ _ _ _ hk2
  have hs2 : mapLookup (getRegistryAt g (registryKey i2 o2)).lambdas l2.GetName
      = none := by rw [hn2]; exact h2
  have hr2 := register_success (getRegistryAt g (registryKey i2 o2)) l2 i2 o2 t2 hs2
  refine ⟨?_, ?_, ?_, ?_, ?_⟩
  · show ((getRegistryAt g (registryKey i1 o1)).Register l1 i1 o1 t1).2 = none
    rw [hr1]
  · show ((getRegistryAt
        (putRegistryAt g (registryKey i1 o1)
          ((getRegistryAt g (registryKey i1 o1)).Register l1 i1 o1 t1).1)
        (registryKey i2 o2)).Register l2 i2 o2 t2).2 = none
    rw [hget2, hr2]
  · show (getRegistryAt
        (putRegistryAt
          (putRegistryAt g (registryKey i1 o1)
            ((getRegistryAt g (registryKey i1 o1)).Register l1 i1 o1 t1).1)
          (registryKey i2 o2)
          ((getRegistryAt
            (putRegistryAt g (registryKey i1 o1)
              ((getRegistryAt g (registryKey i1 o1)).Register l1 i1 o1 t1).1)
            (registryKey i2 o2)).Register l2 i2 o2 t2).1)
        (registryKey i1 o1)).Get n = some l1
    rw [getRegistryAt_put_ne _ _ _ _ hk, getRegistryAt_put_self, hr1]
    show mapLookup (mapInsert (getRegistryAt g (registryKey i1 o1)).lambdas
      l1.GetName l1) n = some l1
    rw [hn1]
    exact mapLookup_insert_self _ _ _
  · show (getRegistryAt
        (putRegistryAt
          (putRegistryAt g (registryKey i1 o1)
            ((getRegistryAt g (registryKey i1 o1)).Register l1 i1 o1 t1).1)
          (registryKey i2 o2)
          ((getRegistryAt
            (putRegistryAt g (registryKey i1 o1)
              ((getRegistryAt g (registryKey i1 o1)).Register l1 i1 o1 t1).1)
            (registryKey i2 o2)).Register l2 i2 o2 t2).1)
        (registryKey i2 o2)).Get n = some l2
    rw [getRegistryAt_put_self, hget2, hr2]
    show mapLookup (mapInsert (getRegistryAt g (registryKey i2 o2)).lambdas
      l2.GetName l2) n = some l2
    rw [hn2]
    exact mapLookup_insert_self _ _ _
  · show (getRegistryAt
        (putRegistryAt g (registryKey i1 o1)
          ((getRegistryAt g (registryKey i1 o1)).Register l1 i1 o1 t1).1)
        (registryKey i2 o2)).Get n = none
    rw [hget2]
    exact h2

/-- Witness for C5 with the key strings of `int -> string` and
`string -> string` and the shared name `f`. -/
theorem type_pair_isolation_witness :
    (registerLambdaG ([] : GlobalStore Nat Nat) "int" "string" lamA 0).2 = none ∧
    getLambdaG (registerLambdaG
        (registerLambdaG ([] : GlobalStore Nat Nat) "int" "string" lamA 0).1
        "string" "string" lamB 1).1 "int" "string" "f" = some lamA ∧
    getLambdaG (registerLambdaG
        (registerLambdaG ([] : GlobalStore Nat Nat) "int" "string" lamA 0).1
        "string" "string" lamB 1).1 "string" "string" "f" = some lamB ∧
    getLambdaG (registerLambdaG ([] : GlobalStore Nat Nat) "int" "string" lamA 0).1
      "string" "string" "f" = none := by
  have h := type_pair_isolation ([] : GlobalStore Nat Nat) "int" "string"
    "string" "string" "f" lamA lamB 0 1 (by decide) rfl rfl rfl rfl
  exact ⟨h.1, h.2.2.1, h.2.2.2.1, h.2.2.2.2⟩

/-- C10.  For a name present both as a concrete Unit and as a stored
factory, `Unregister` returns true and removes only the concrete Unit and
its metadata entry; the factory survives, so the name still appears in
`List()` and `Build` still materializes it afterwards; a second
`Unregister` then removes the factory. -/
theorem unregister_concrete_first {I O : Type} (r : Registry I O)
    (name : String) (l : Lambda I O) (ctor : Unit → Lambda I O)
    (inT outT : String) (now : Nat)
    (hl : mapLookup r.lambdas name = some l)
    (hc : mapLookup r.constructors name = some ctor) :
    (r.Unregister name).2 = true ∧
    (r.Unregister name).1.lambdas = mapErase r.lambdas name ∧
    (r.Unregister name).1.meta = mapErase r.meta name ∧
    (r.Unregister name).1.constructors = r.constructors ∧
    name ∈ (r.Unregister name).1.List ∧
    ((r.Unregister name).1.Build name inT outT now).2.1 = some (ctor ()) ∧
    ((r.Unregister name).1.Build name inT outT now).2.2 = none ∧
    ((r.Unregister name).1.Unregister name).2 = true ∧
    mapLookup ((r.Unregister name).1.Unregister name).1.constructors name
      = none := by
  have hls : (mapLookup r.lambdas name).isSome = true := by rw [hl]; rfl
  have hu : r.Unregister name
      = ({ r with
            lambdas := mapErase r.lambdas name
          , meta := mapErase r.meta name }, true) := by
    unfold Registry.Unregister
    rw [if_pos hls]
  have hcs : (mapLookup (mapErase r.lambdas name) name).isSome = false := by
    rw [mapLookup_erase_self]; rfl
  refine ⟨by rw [hu], by rw [hu], by rw [hu], by rw [hu], ?_, ?_, ?_, ?_, ?_⟩
  · rw [hu]
    unfold Registry.List
    refine List.mem_append_right _ ?_
    rw [List.mem_filter]
    refine ⟨mem_keys_of_mapLookup _ _ _ hc, ?_⟩
    show (mapLookup (mapErase r.lambdas name) name).isNone = true
    rw [mapLookup_erase_self]
    rfl
  · rw [hu]
    unfold Registry.Build
    rw [show mapLookup ({ r with
          lambdas := mapErase r.lambdas name
        , meta := mapErase r.meta name } : Registry I O).constructors name
      = some ctor from hc]
  · rw [hu]
    unfold Registry.Build
    rw [show mapLookup ({ r with
          lambdas := mapErase r.lambdas name
        , meta := mapErase r.meta name } : Registry I O).constructors name
      = some ctor from hc]
  · rw [hu]
    unfold Registry.Unregister
    rw [if_neg (by rw [hcs]; simp), if_pos (by rw [hc]; rfl)]
  · rw [hu]
    unfold Registry.Unregister
    rw [if_neg (by rw [hcs]; simp), if_pos (by rw [hc]; rfl)]
    exact mapLookup_erase_self _ _

/-- Witness for C10 at the concrete registry holding both a Unit and a
factory under `f`. -/
theorem unregister_concrete_first_witness :
    (regAB.Unregister "f").2 = true ∧
    (regAB.Unregister "f").1.constructors = regAB.constructors ∧
    "f" ∈ (regAB.Unregister "f").1.List ∧
    ((regAB.Unregister "f").1.Build "f" "int" "int" 9).2.2 = none ∧
    ((regAB.Unregister "f").1.Unregister "f").2 = true := by
  have h := unregister_concrete_first regAB "f" lamA (fun _ => lamB)
    "int" "int" 9 rfl rfl
  exact ⟨h.1, h.2.2.2.1, h.2.2.2.2.1, h.2.2.2.2.2.2.1, h.2.2.2.2.2.2.2.1⟩

/-- C3 counterexample.  On the concrete registry `regAB`, whose name `f`
already has a concrete Unit, `Build "f"` does not fail as the claim states:
it returns the freshly materialized Unit with a nil error, while the
silently failed re-registration leaves the original Unit in place. -/
theorem build_duplicate_success_cex :
    (regAB.Build "f" "int" "int" 1).2.2 = none ∧
    (regAB.Build "f" "int" "int" 1).2.1 = some lamB ∧
    (regAB.Build "f" "int" "int" 1).1.Get "f" = some lamA :=
  ⟨rfl, rfl, rfl⟩

/-- C3 amended.  `Build(name)` fails only when no factory is stored under
the name; otherwise it materializes via the factory, attempts to register
the result but discards the `Register` error, and returns the materialized
Unit with a nil error — in particular, building a name that already has a
concrete Unit in the same type pair succeeds and leaves the registry
unchanged instead of failing. -/
theorem build_registers_materialized {I O : Type} (r : Registry I O)
    (name inT outT : String) (now : Nat) :
    (mapLookup r.constructors name = none →
      r.Build name inT outT now = (r, none, some (.constructorNotFound name))) ∧
    (∀ ctor, mapLookup r.constructors name = some ctor →
      r.Build name inT outT now
        = ((r.Register (ctor ()) inT outT now).1, some (ctor ()), none)) ∧
    (∀ ctor l0, mapLookup r.constructors name = some ctor →
      mapLookup r.lambdas (ctor ()).GetName = some l0 →
      (r.Build name inT outT now).1 = r ∧
      (r.Build name inT outT now).2.2 = none) := by
  refine ⟨?_, ?_, ?_⟩
  · intro h
    unfold Registry.Build
    rw [h]
  · intro ctor h
    unfold Registry.Build
    rw [h]
  · intro ctor l0 h hdup
    have hb : r.Build name inT outT now
        = ((r.Register (ctor ()) inT outT now).1, some (ctor ()), none) := by
      unfold Registry.Build
      rw [h]
    have hreg := (register_duplicate_atomic r (ctor ()) l0 inT outT now hdup).1
    constructor
    · rw [hb, hreg]
    · rw [hb]

/-- Witness for C3 amended: on `regAB`, building the factory-backed name
`f` returns `lamB` with no error and the registry keeps `lamA`; on a
registry without factories, `Build` fails with the missing-factory
error. -/
theorem build_registers_materialized_witness :
    regAB.Build "f" "int" "int" 1
      = ((regAB.Register lamB "int" "int" 1).1, some lamB, none) ∧
    (regAB.Build "f" "int" "int" 1).1 = regAB ∧
    emptyRegN.Build "f" "int" "int" 1
      = (emptyRegN, none, some (.constructorNotFound "f")) :=
  ⟨(build_registers_materialized regAB "f" "int" "int" 1).2.1 (fun _ => lamB) rfl,
   ((build_registers_materialized regAB "f" "int" "int" 1).2.2 (fun _ => lamB)
      lamA rfl rfl).1,
   (build_registers_materialized emptyRegN "f" "int" "int" 1).1 rfl⟩

/-- C7.  The chain composes right-to-left: with middleware `A` then `B`
then terminal `T`, all recording into a shared log, execution appends
exactly `A-before, B-before, T, B-after, A-after` and returns the terminal
result; and the terminal runs only when every middleware calls `next` — a
middleware that short-circuits (here in `B`'s position) yields a log with
no `T` entry and the short-circuit error instead. -/
theorem chain_ordering (Ctx I O : Type) (c : Ctx) (f : I → Except Err O)
    (input : I) (s : List String) :
    MWChain.Execute
        { middlewares := [logMW "A", logMW "B"], final := logTerminal f }
        c input s
      = (f input, s ++ ["A-before", "B-before", "T", "B-after", "A-after"]) ∧
    MWChain.Execute
        { middlewares := [logMW "A", shortMW], final := logTerminal f }
        c input s
      = (.error (.msg "stop"), s ++ ["A-before", "B-short", "A-after"]) := by
  constructor <;>
    simp [MWChain.Execute, buildChainFrom, logMW, logTerminal, shortMW,
      List.append_assoc]

/-- C8.  The Unit-level retry loop: (1) every run performs at most
`retries + 1` attempts, numbered consecutively from 0, each re-attempt `k`
preceded by its linear-backoff wait of `k * 100ms`; (2) when the first
`k` attempts fail with the context quiet, a success at attempt
`k ≤ retries` is returned at once with no further attempt; (3) a context
seen done before a backoff wait stops the loop immediately with the
context's error and no wait or attempt; (4) a context error detected right
after a failed attempt is surfaced as the context's own error and is never
retried past. -/
theorem unit_retry_linear_policy (O : Type) [Inhabited O] (retries : Nat)
    (f : Nat → Except Err O) (cx : CtxObs) :
    (∃ n, n ≤ retries + 1 ∧
      (invokeWithRetry retries f cx).2 = retryTraceFrom 0 n ∧
      attemptEvents (invokeWithRetry retries f cx).2 ≤ retries + 1) ∧
    (∀ k v, k ≤ retries →
      (∀ j, j < k → isOkE (f j) = false ∧ cx.post j = none) →
      (∀ j, j ≤ k → 0 < j → cx.pre j = none) →
      f k = .ok v →
      invokeWithRetry retries f cx = (.ok v, retryTraceFrom 0 (k + 1))) ∧
    (∀ k e, 0 < k → k ≤ retries →
      (∀ j, j < k → isOkE (f j) = false ∧ cx.post j = none) →
      (∀ j, j < k → 0 < j → cx.pre j = none) →
      cx.pre k = some e →
      invokeWithRetry retries f cx = (.error e, retryTraceFrom 0 k)) ∧
    (∀ k e ce, k ≤ retries →
      (∀ j, j < k → isOkE (f j) = false ∧ cx.post j = none) →
      (∀ j, j ≤ k → 0 < j → cx.pre j = none) →
      f k = .error e → cx.post k = some ce →
      invokeWithRetry retries f cx = (.error ce, retryTraceFrom 0 (k + 1))) := by
  refine ⟨?_, ?_, ?_, ?_⟩
  · obtain ⟨n, hn, htr⟩ := retryGo_trace_shape f cx (retries + 1) 0 none
    refine ⟨n, hn, htr, ?_⟩
    show attemptEvents (retryGo f cx 0 (retries + 1) none).2 ≤ retries + 1
    rw [htr, attemptEvents_retryTraceFrom]
    exact hn
  · intro k v hk hclean hpre hok
    exact retryGo_clean_ok f cx v k 0 (retries + 1) none (by omega)
      (fun j hj => by simpa using hclean j hj)
      (fun j hj hp => by simpa using hpre j hj (by simpa using hp))
      (by simpa using hok)
  · intro k e hk0 hk hclean hpre hsome
    exact retryGo_clean_pre_abort f cx e k 0 (retries + 1) none (by omega)
      (fun j hj => by simpa using hclean j hj)
      (fun j hj hp => by simpa using hpre j hj (by simpa using hp))
      (by simpa using hk0)
      (by simpa using hsome)
  · intro k e ce hk hclean hpre hferr hpost
    exact retryGo_clean_post_abort f cx e ce k 0 (retries + 1) none (by omega)
      (fun j hj => by simpa using hclean j hj)
      (fun j hj hp => by simpa using hpre j hj (by simpa using hp))
      (by simpa using hferr)
      (by simpa using hpost)

/-- Witness for C8: with 3 configured retries against a function that fails
twice and succeeds on attempt 2 (the third call), the loop returns the
success after exactly 3 attempts — waits of 100ms and 200ms, no fourth
attempt. -/
theorem unit_retry_linear_policy_witness :
    invokeWithRetry 3 exF cleanCtx
      = (.ok 42, [.attempt 0, .wait 100000000, .attempt 1,
                  .wait 200000000, .attempt 2]) ∧
    attemptEvents (invokeWithRetry 3 exF cleanCtx).2 = 3 := by
  have h := (unit_retry_linear_policy Nat 3 exF cleanCtx).2.1 2 42
    (by omega) (by decide) (by decide) rfl
  constructor
  · rw [h]
    rfl
  · rw [h]
    rfl

set_option maxRecDepth 8192 in
/-- C9 amended.  The Retry middleware: (1) for re-attempts `k ≤ 37` the
backoff is the exponential `2^(k-1) * 100ms` capped at 5s — beyond that the
64-bit computation wraps, and at re-attempt 38 it yields a negative backoff
whose wait fires immediately (see the counterexample), so the
exponential-with-cap description is established only on this range; (2) a
success from `next` after a clean failing
prefix is returned unchanged; (3) a context seen done before a backoff
aborts immediately with the context's error; (4) a context error right
after a failed attempt is surfaced and never retried past; (5) when all
`n + 1` attempts fail with the context quiet, the result wraps the last
underlying error annotated with the configured retry count `n`
(`after n retries: ...`). -/
theorem mw_retry_policy (O : Type) [Inhabited O] (n : Nat)
    (f : Nat → Except Err O) (cx : CtxObs) :
    (∀ k, k < 38 → 1 ≤ k →
      mwBackoff k = min ((2 : Int) ^ (k - 1) * 100000000) 5000000000) ∧
    (∀ k v, k ≤ n →
      (∀ j, j < k → isOkE (f j) = false ∧ cx.post j = none) →
      (∀ j, j ≤ k → 0 < j → cx.pre j = none) →
      f k = .ok v →
      RetryMW n f cx = (.ok v, mwTraceFrom 0 (k + 1))) ∧
    (∀ k e, 0 < k → k ≤ n →
      (∀ j, j < k → isOkE (f j) = false ∧ cx.post j = none) →
      (∀ j, j < k → 0 < j → cx.pre j = none) →
      cx.pre k = some e →
      RetryMW n f cx = (.error e, mwTraceFrom 0 k)) ∧
    (∀ k e ce, k ≤ n →
      (∀ j, j < k → isOkE (f j) = false ∧ cx.post j = none) →
      (∀ j, j ≤ k → 0 < j → cx.pre j = none) →
      f k = .error e → cx.post k = some ce →
      RetryMW n f cx = (.error ce, mwTraceFrom 0 (k + 1))) ∧
    ((∀ j, j < n + 1 → isOkE (f j) = false ∧ cx.post j = none) →
     (∀ j, j < n + 1 → 0 < j → cx.pre j = none) →
     RetryMW n f cx = (.error (.afterRetries n (errOf (f n))), mwTraceFrom 0 (n + 1))) := by
  refine ⟨?_, ?_, ?_, ?_, ?_⟩
  · decide
  · intro k v hk hclean hpre hok
    exact mwRetryGo_clean_ok n f cx v k 0 (n + 1) none (by omega)
      (fun j hj => by simpa using hclean j hj)
      (fun j hj hp => by simpa using hpre j hj (by simpa using hp))
      (by simpa using hok)
  · intro k e hk0 hk hclean hpre hsome
    exact mwRetryGo_clean_pre_abort n f cx e k 0 (n + 1) none (by omega)
      (fun j hj => by simpa using hclean j hj)
      (fun j hj hp => by simpa using hpre j hj (by simpa using hp))
      (by simpa using hk0)
      (by simpa using hsome)
  · intro k e ce hk hclean hpre hferr hpost
    exact mwRetryGo_clean_post_abort n f cx e ce k 0 (n + 1) none (by omega)
      (fun j hj => by simpa using hclean j hj)
      (fun j hj hp => by simpa using hpre j hj (by simpa using hp))
      (by simpa using hferr)
      (by simpa using hpost)
  · intro hclean hpre
    have h := mwRetryGo_clean_exhaust n f cx (n + 1) 0 none (Nat.succ_pos n)
      (fun j hj => by simpa using hclean j hj)
      (fun j hj hp => by simpa using hpre j hj (by simpa using hp))
    simpa using h

/-- Witness for C9: with one configured retry against an always-failing
`next`, both attempts fail and the result wraps the last error as
`after 1 retries`; the single backoff (re-attempt 1) is 100ms. -/
theorem mw_retry_policy_witness :
    RetryMW 1 failF cleanCtx
      = (.error (.afterRetries 1 (.msg "e")),
         [.attempt 0, .wait 100000000, .attempt 1]) ∧
    mwBackoff 1 = min ((2 : Int) ^ 0 * 100000000) 5000000000 := by
  have h := (mw_retry_policy Nat 1 failF cleanCtx).2.2.2.2
    (by decide) (by decide)
  constructor
  · rw [h]
    rfl
  · exact (mw_retry_policy Nat 1 failF cleanCtx).1 1 (by omega) (by omega)

/-- C9 counterexample.  At re-attempt 38 the computed backoff
`2^37 * 100ms` overflows 64-bit `time.Duration` to a negative value, so the
wait is not the claimed 5-second cap: in a run of `Retry(38)` against an
always-failing `next`, the wait event before attempt 38 (trace position 75)
carries the negative overflowed duration, not `5000000000` ns. -/
theorem mw_retry_backoff_cex :
    (RetryMW 38 failF cleanCtx).2[75]? = some (.wait (mwBackoff 38)) ∧
    mwBackoff 38 < 0 ∧
    (RetryMW 38 failF cleanCtx).2[75]? ≠ some (.wait 5000000000) := by
  refine ⟨by decide, by decide, by decide⟩

/-- When the invocation reports a transport error, that error is the
attempt's contribution to `lastErr`. -/
theorem invAttemptErr_some [Inhabited O] (inv : Invoker I O)
    (reg : Registry I O) (os : Nat → InvOracle) (name : String) (input : I)
    (j : Nat) (ro : Option (LambdaResult O)) (e : Err)
    (hI : Invoker.Invoke inv reg (os j) name input = (ro, some e)) :
    invAttemptErr inv reg os name input j = some e := by
  unfold invAttemptErr
  rw [hI]

/-- When the invocation reports no transport error, the result's own error
is the attempt's contribution to `lastErr`. -/
theorem invAttemptErr_none [Inhabited O] (inv : Invoker I O)
    (reg : Registry I O) (os : Nat → InvOracle) (name : String) (input : I)
    (j : Nat) (ro : Option (LambdaResult O))
    (hI : Invoker.Invoke inv reg (os j) name input = (ro, none)) :
    invAttemptErr inv reg os name input j = (ro.getD default).error := by
  unfold invAttemptErr
  rw [hI]

/-- Invoker-level retry: a context seen done in the `select` before the
fixed delay of re-attempt `a+k` (after a clean failing prefix) aborts with
a bare `(nil, ctx.Err())`. -/
theorem invRetryGo_clean_pre_abort [Inhabited O] (inv : Invoker I O)
    (reg : Registry I O) (os : Nat → InvOracle) (pre : Nat → Option Err)
    (name : String) (input : I) (now : Nat) (e : Err) :
    ∀ k a fuel last, k < fuel →
      (∀ j, j < k → (invAttemptErr inv reg os name input (a + j)).isSome = true) →
      (∀ j, j < k → 0 < a + j → pre (a + j) = none) →
      0 < a + k → pre (a + k) = some e →
      invRetryGo inv reg os pre name input now a fuel last = (none, some e) := by
  intro k
  induction k with
  | zero =>
    intro a fuel last hfuel _ _ hpos hsome
    obtain ⟨m, rfl⟩ := Nat.exists_eq_add_of_lt hfuel
    rw [Nat.add_zero] at hpos hsome
    have hc : 0 < a ∧ (pre a).isSome := ⟨hpos, by rw [hsome]; rfl⟩
    simp [invRetryGo, hc, hsome]
  | succ k ih =>
    intro a fuel last hfuel hfails hpre hpos hsome
    obtain ⟨m, rfl⟩ := Nat.exists_eq_add_of_lt hfuel
    have hprea : ¬(0 < a ∧ (pre a).isSome) := by
      rintro ⟨ha, hs⟩
      have hp0 := hpre 0 (Nat.succ_pos k) (by simpa using ha)
      rw [Nat.add_zero] at hp0
      rw [hp0] at hs
      simp at hs
    have hfail0 : (invAttemptErr inv reg os name input a).isSome = true := by
      simpa using hfails 0 (Nat.succ_pos k)
    have hrest : ∀ last', invRetryGo inv reg os pre name input now (a + 1)
        (k + 1 + m) last' = (none, some e) := by
      intro last'
      apply ih
      · omega
      · intro j hj
        have hc := hfails (j + 1) (by omega)
        rw [show a + (j + 1) = a + 1 + j by omega] at hc
        exact hc
      · intro j hj hjpos
        have hp := hpre (j + 1) (by omega) (by omega)
        rw [show a + (j + 1) = a + 1 + j by omega] at hp
        exact hp
      · omega
      · rw [show a + 1 + k = a + (k + 1) by omega]
        exact hsome
    cases hI : Invoker.Invoke inv reg (os a) name input with
    | mk ro oe =>
      cases oe with
      | some e' =>
        show invRetryGo inv reg os pre name input now a (k + 1 + m + 1) last
          = (none, some e)
        simp [invRetryGo, hprea, hI, hrest]
      | none =>
        rw [invAttemptErr_none inv reg os name input a ro hI] at hfail0
        cases he : (ro.getD default).error with
        | none => rw [he] at hfail0; simp at hfail0
        | some fe =>
          show invRetryGo inv reg os pre name input now a (k + 1 + m + 1) last
            = (none, some e)
          simp [invRetryGo, hprea, hI, he, hrest]

/-- One failing iteration of `Invoker.Retry` with a transport error:
`lastErr` becomes that error and the loop moves to the next attempt. -/
theorem invRetryGo_step_some [Inhabited O] (inv : Invoker I O)
    (reg : Registry I O) (os : Nat → InvOracle) (pre : Nat → Option Err)
    (name : String) (input : I) (now : Nat) (a fuel : Nat)
    (last : Option Err) (ro : Option (LambdaResult O)) (e' : Err)
    (hprea : ¬(0 < a ∧ (pre a).isSome = true))
    (hI : Invoker.Invoke inv reg (os a) name input = (ro, some e')) :
    invRetryGo inv reg os pre name input now a (fuel + 1) last
      = invRetryGo inv reg os pre name input now (a + 1) fuel (some e') := by
  simp [invRetryGo, hprea, hI]

/-- One failing iteration of `Invoker.Retry` with a nil transport error but
a function-level error in the result: `lastErr` becomes the result's own
error and the loop moves to the next attempt. -/
theorem invRetryGo_step_fnerr [Inhabited O] (inv : Invoker I O)
    (reg : Registry I O) (os : Nat → InvOracle) (pre : Nat → Option Err)
    (name : String) (input : I) (now : Nat) (a fuel : Nat)
    (last : Option Err) (ro : Option (LambdaResult O)) (fe : Err)
    (hprea : ¬(0 < a ∧ (pre a).isSome = true))
    (hI : Invoker.Invoke inv reg (os a) name input = (ro, none))
    (he : (ro.getD default).error = some fe) :
    invRetryGo inv reg os pre name input now a (fuel + 1) last
      = invRetryGo inv reg os pre name input now (a + 1) fuel (some fe) := by
  simp [invRetryGo, hprea, hI, he]

/-- Invoker-level retry: when every attempt fails with the context quiet,
the loop returns a populated shell wrapping the last error with a
max-retries-exceeded annotation, paired with the last error itself. -/
theorem invRetryGo_clean_exhaust [Inhabited O] (inv : Invoker I O)
    (reg : Registry I O) (os : Nat → InvOracle) (pre : Nat → Option Err)
    (name : String) (input : I) (now : Nat) :
    ∀ fuel a last, 0 < fuel →
      (∀ j, j < fuel → (invAttemptErr inv reg os name input (a + j)).isSome = true) →
      (∀ j, j < fuel → 0 < a + j → pre (a + j) = none) →
      invRetryGo inv reg os pre name input now a fuel last
        = (some { output := default
                , error := some (.maxRetriesExceeded
                    ((invAttemptErr inv reg os name input (a + fuel - 1)).getD
                      (.msg "nil")))
                , duration := 0, timestamp := now },
           invAttemptErr inv reg os name input (a + fuel - 1)) := by
  intro fuel
  induction fuel with
  | zero => intro a last h; omega
  | succ m ih =>
    intro a last _ hfails hpre
    have hprea : ¬(0 < a ∧ (pre a).isSome) := by
      rintro ⟨ha, hs⟩
      have hp0 := hpre 0 (Nat.succ_pos m) (by simpa using ha)
      rw [Nat.add_zero] at hp0
      rw [hp0] at hs
      simp at hs
    have hfail0 : (invAttemptErr inv reg os name input a).isSome = true := by
      simpa using hfails 0 (Nat.succ_pos m)
    cases hI : Invoker.Invoke inv reg (os a) name input with
    | mk ro oe =>
      cases m with
      | zero =>
        rw [show a + 1 - 1 = a by omega]
        cases oe with
        | some e' =>
          rw [invAttemptErr_some inv reg os name input a ro e' hI]
          show invRetryGo inv reg os pre name input now a 1 last = _
          simp [invRetryGo, hprea, hI]
        | none =>
          have haeq := invAttemptErr_none inv reg os name input a ro hI
          rw [haeq] at hfail0
          cases he : (ro.getD default).error with
          | none => rw [he] at hfail0; simp at hfail0
          | some fe =>
            rw [he] at haeq
            rw [haeq]
            show invRetryGo inv reg os pre name input now a 1 last = _
            simp [invRetryGo, hprea, hI, he]
      | succ m' =>
        have hrec : ∀ last', invRetryGo inv reg os pre name input now (a + 1)
            (m' + 1) last'
            = (some { output := default
                    , error := some (.maxRetriesExceeded
                        ((invAttemptErr inv reg os name input
                          (a + 1 + (m' + 1) - 1)).getD (.msg "nil")))
                    , duration := 0, timestamp := now },
               invAttemptErr inv reg os name input (a + 1 + (m' + 1) - 1)) := by
          intro last'
          apply ih
          · omega
          · intro j hj
            have hc := hfails (j + 1) (by omega)
            rw [show a + (j + 1) = a + 1 + j by omega] at hc
            exact hc
          · intro j hj hjpos
            have hp := hpre (j + 1) (by omega) (by omega)
            rw [show a + (j + 1) = a + 1 + j by omega] at hp
            exact hp
        rw [show a + 1 + (m' + 1) - 1 = a + (m' + 1 + 1) - 1 by omega] at hrec
        cases oe with
        | some e' =>
          show invRetryGo inv reg os pre name input now a (m' + 1 + 1) last = _
          rw [invRetryGo_step_some inv reg os pre name input now a (m' + 1)
            last ro e' hprea hI, hrec]
        | none =>
          rw [invAttemptErr_none inv reg os name input a ro hI] at hfail0
          cases he : (ro.getD default).error with
          | none => rw [he] at hfail0; simp at hfail0
          | some fe =>
            show invRetryGo inv reg os pre name input now a (m' + 1 + 1) last = _
            rw [invRetryGo_step_fnerr inv reg os pre name input now a (m' + 1)
              last ro fe hprea hI he, hrec]

/-- The shell returned by `Lambda.Invoke` always carries the returned error
in its own error field and the measured duration and start timestamp. -/
theorem lambdaInvoke_shell [Inhabited O] (l : Lambda I O) (cx : CtxObs)
    (tor : TimeOracle) (input : I) :
    (l.Invoke cx tor input).1.error = (l.Invoke cx tor input).2 ∧
    (l.Invoke cx tor input).1.duration = tor.elapsed ∧
    (l.Invoke cx tor input).1.timestamp = tor.now := by
  unfold Lambda.Invoke
  cases (invokeWithRetry l.options.retries (l.invoke input) cx).1 <;>
    exact ⟨rfl, rfl, rfl⟩

/-- Entry `j` of the fan-out result is computed from request `j` alone. -/
theorem invokeMultipleGo_get [Inhabited O] (inv : Invoker I O)
    (reg : Registry I O) (os : Nat → InvOracle) (errNow : Nat → Nat) :
    ∀ (reqs : List (String × I)) (i j : Nat) (nm : String) (inp : I),
      reqs[j]? = some (nm, inp) →
      (invokeMultipleGo inv reg os errNow i reqs)[j]?
        = some (match Invoker.Invoke inv reg (os (i + j)) nm inp with
                | (_, some e) =>
                  (nm, { output := default, error := some e
                       , duration := 0, timestamp := errNow (i + j) })
                | (r, none) => (nm, r.getD default)) := by
  intro reqs
  induction reqs with
  | nil => intro i j nm inp h; simp at h
  | cons q rest ih =>
    intro i j nm inp h
    cases j with
    | zero =>
      simp at h
      subst h
      simp [invokeMultipleGo]
    | succ j =>
      simp at h
      have := ih (i + 1) j nm inp (by simpa using h)
      rw [show i + 1 + j = i + (j + 1) by omega] at this
      simpa [invokeMultipleGo] using this

/-- `Pipeline`'s loop on a prefix of error-free invocations followed by one
whose `Invoke` reports an error: it aborts with no slice and the
step-indexed wrap of that error. -/
theorem pipelineGo_clean_abort [Inhabited O] (inv : Invoker I O)
    (reg : Registry I O) (os : Nat → InvOracle) (name : String) (e : Err) :
    ∀ (xs : List I) (x : I) (rest : List I) (i : Nat)
      (acc : List (LambdaResult O)),
      (∀ j, (hj : j < xs.length) →
        (Invoker.Invoke inv reg (os (i + j)) name (xs.get ⟨j, hj⟩)).2 = none) →
      (Invoker.Invoke inv reg (os (i + xs.length)) name x).2 = some e →
      pipelineGo inv reg os name i (xs ++ x :: rest) acc
        = (none, some (.pipelineFailed (i + xs.length) e)) := by
  intro xs
  induction xs with
  | nil =>
    intro x rest i acc _ herr
    simp only [List.length_nil, Nat.add_zero] at herr ⊢
    cases hI : Invoker.Invoke inv reg (os i) name x with
    | mk ro oe =>
      have hoe : oe = some e := by rw [hI] at herr; exact herr
      subst hoe
      show pipelineGo inv reg os name i (x :: rest) acc = _
      simp [pipelineGo, hI]
  | cons p xs ih =>
    intro x rest i acc hclean herr
    have h0 : (Invoker.Invoke inv reg (os i) name p).2 = none := by
      have hc := hclean 0 (Nat.succ_pos _)
      rw [Nat.add_zero] at hc
      exact hc
    obtain ⟨r, hro, hrerr⟩ := invoke_ok_pairs inv reg (os i) name p h0
    have hpair : Invoker.Invoke inv reg (os i) name p = (some r, none) := by
      have hsplit : Invoker.Invoke inv reg (os i) name p
          = ((Invoker.Invoke inv reg (os i) name p).1,
             (Invoker.Invoke inv reg (os i) name p).2) := rfl
      rw [hsplit, hro, h0]
    have hstep : pipelineGo inv reg os name i ((p :: xs) ++ x :: rest) acc
        = pipelineGo inv reg os name (i + 1) (xs ++ x :: rest) (acc ++ [r]) := by
      show pipelineGo inv reg os name i (p :: (xs ++ x :: rest)) acc = _
      simp [pipelineGo, hpair, hrerr]
    have hih := ih x rest (i + 1) (acc ++ [r])
      (fun j hj => by
        have hc := hclean (j + 1) (Nat.succ_lt_succ hj)
        rw [show i + (j + 1) = i + 1 + j by omega] at hc
        exact hc)
      (by
        rw [show i + 1 + xs.length = i + (xs.length + 1) by omega]
        exact herr)
    rw [hstep, hih]
    show _ = (none, some (.pipelineFailed (i + (xs.length + 1)) e))
    rw [show i + 1 + xs.length = i + (xs.length + 1) by omega]

/-- `Pipeline`'s loop when every invocation is error-free: it returns all
results, accumulated in input order. -/
theorem pipelineGo_clean_all [Inhabited O] (inv : Invoker I O)
    (reg : Registry I O) (os : Nat → InvOracle) (name : String) :
    ∀ (xs : List I) (i : Nat) (acc : List (LambdaResult O)),
      (∀ j, (hj : j < xs.length) →
        (Invoker.Invoke inv reg (os (i + j)) name (xs.get ⟨j, hj⟩)).2 = none) →
      pipelineGo inv reg os name i xs acc
        = (some (acc ++ resultsFrom inv reg os name i xs), none) := by
  intro xs
  induction xs with
  | nil =>
    intro i acc _
    simp [pipelineGo, resultsFrom]
  | cons p xs ih =>
    intro i acc hclean
    have h0 : (Invoker.Invoke inv reg (os i) name p).2 = none := by
      have hc := hclean 0 (Nat.succ_pos _)
      rw [Nat.add_zero] at hc
      exact hc
    obtain ⟨r, hro, hrerr⟩ := invoke_ok_pairs inv reg (os i) name p h0
    have hpair : Invoker.Invoke inv reg (os i) name p = (some r, none) := by
      have hsplit : Invoker.Invoke inv reg (os i) name p
          = ((Invoker.Invoke inv reg (os i) name p).1,
             (Invoker.Invoke inv reg (os i) name p).2) := rfl
      rw [hsplit, hro, h0]
    have hstep : pipelineGo inv reg os name i (p :: xs) acc
        = pipelineGo inv reg os name (i + 1) xs (acc ++ [r]) := by
      simp [pipelineGo, hpair, hrerr]
    have hih := ih (i + 1) (acc ++ [r])
      (fun j hj => by
        have hc := hclean (j + 1) (Nat.succ_lt_succ hj)
        rw [show i + (j + 1) = i + 1 + j by omega] at hc
        exact hc)
    rw [hstep, hih]
    have hr : resultsFrom inv reg os name i (p :: xs)
        = r :: resultsFrom inv reg os name (i + 1) xs := by
      show (Invoker.Invoke inv reg (os i) name p).1.getD default
          :: resultsFrom inv reg os name (i + 1) xs
        = r :: resultsFrom inv reg os name (i + 1) xs
      rw [hro]
      rfl
    rw [hr]
    simp

/-- C2 amended.  `Pipeline` invokes the Unit sequentially in input order,
but the successful-prefix return never happens: because `Lambda.Invoke`
returns each function-level error as the invoker error too, the first input
whose invocation carries any non-nil error — function-level included —
makes `Pipeline` return a nil slice and the error wrapped as
`pipeline failed at step i`; only an all-error-free run returns results
(all of them, in order).  The third conjunct records the pairing that makes
the prefix branch dead: a nil invoker error forces a populated result with
a nil function error. -/
theorem pipeline_error_propagation {I O : Type} [Inhabited O]
    (inv : Invoker I O) (reg : Registry I O) (os : Nat → InvOracle)
    (name : String) :
    (∀ (xs : List I) (x : I) (rest : List I) (e : Err),
      (∀ j, (hj : j < xs.length) →
        (Invoker.Invoke inv reg (os j) name (xs.get ⟨j, hj⟩)).2 = none) →
      (Invoker.Invoke inv reg (os xs.length) name x).2 = some e →
      Invoker.Pipeline inv reg os name (xs ++ x :: rest)
        = (none, some (.pipelineFailed xs.length e))) ∧
    (∀ (xs : List I),
      (∀ j, (hj : j < xs.length) →
        (Invoker.Invoke inv reg (os j) name (xs.get ⟨j, hj⟩)).2 = none) →
      Invoker.Pipeline inv reg os name xs
        = (some (resultsFrom inv reg os name 0 xs), none)) ∧
    (∀ (o : InvOracle) (input : I),
      (Invoker.Invoke inv reg o name input).2 = none →
      ∃ r, (Invoker.Invoke inv reg o name input).1 = some r ∧
        r.error = none) := by
  refine ⟨?_, ?_, ?_⟩
  · intro xs x rest e hclean herr
    have h := pipelineGo_clean_abort inv reg os name e xs x rest 0 []
      (fun j hj => by simpa using hclean j hj)
      (by simpa using herr)
    simpa [Invoker.Pipeline] using h
  · intro xs hclean
    have h := pipelineGo_clean_all inv reg os name xs 0 []
      (fun j hj => by simpa using hclean j hj)
    simpa [Invoker.Pipeline] using h
  · intro o input h
    exact invoke_ok_pairs inv reg o name input h

/-- C2 counterexample.  Against the Unit `mix` (which doubles but fails on
input 2) the call `Pipeline(ctx, mix, [1, 2])` does not return the
successful prefix for input 1 together with the failing result: because the
invoker receives the function error as its own error, it returns a nil
results slice and the wrapped error `pipeline failed at step 1`. -/
theorem pipeline_prefix_cex :
    Invoker.Pipeline invPlain regMix os0 "mix" [1, 2]
      = (none, some (.pipelineFailed 1 (.msg "boom"))) := by
  decide

/-- Witness for C2 amended: an all-success pipeline returns every result in
order; a pipeline hitting the function-level failure on input 2 aborts with
the wrapped step error and no slice. -/
theorem pipeline_error_propagation_witness :
    Invoker.Pipeline invPlain regMix os0 "mix" [1, 3]
      = (some (resultsFrom invPlain regMix os0 "mix" 0 [1, 3]), none) ∧
    Invoker.Pipeline invPlain regMix os0 "mix" [1, 2, 3]
      = (none, some (.pipelineFailed 1 (.msg "boom"))) :=
  ⟨(pipeline_error_propagation invPlain regMix os0 "mix").2.1 [1, 3]
      (by decide),
   (pipeline_error_propagation invPlain regMix os0 "mix").1 [1] 2 [3]
      (.msg "boom") (by decide) (by decide)⟩

/-- C1 counterexample.  `Invoke` on an unregistered name returns a bare
error with a nil result — no populated shell with duration/timestamp. -/
theorem invoker_nil_result_cex :
    (Invoker.Invoke invPlain emptyRegN oracle0 "missing" 0).1 = none ∧
    (Invoker.Invoke invPlain emptyRegN oracle0 "missing" 0).2
      = some (.notFound "missing") :=
  ⟨rfl, rfl⟩

/-- C1 amended.  Only `InvokeAsync` and `InvokeMultiple` always surface a
populated shell on failure, and `Retry` builds one after exhausting its
attempts; `Invoke` (and `Timeout`, which delegates to it) return a bare
error with a nil result on transport failures — unknown name, or context
done while acquiring a semaphore slot — and `Retry` returns a nil result on
context cancellation.  When the Unit itself runs, the shell is always
populated, carries the same error that is returned, and has its duration
and timestamp set. -/
theorem invoker_error_result_shells {I O : Type} [Inhabited O]
    (inv : Invoker I O) (reg : Registry I O) :
    (∀ (o : InvOracle) (name : String) (input : I), reg.Get name = none →
      Invoker.Invoke inv reg o name input = (none, some (.notFound name)) ∧
      Invoker.Timeout inv reg o name input = (none, some (.notFound name))) ∧
    (∀ (o : InvOracle) (name : String) (input : I) (cap : Nat) (e : Err)
       (l : Lambda I O),
      reg.Get name = some l → inv.semaphore = some cap → o.semDone = some e →
      Invoker.Invoke inv reg o name input = (none, some e)) ∧
    (∀ (o : InvOracle) (name : String) (input : I) (l : Lambda I O),
      reg.Get name = some l → inv.semaphore = none →
      Invoker.Invoke inv reg o name input
        = (some (l.Invoke o.cx o.tor input).1, (l.Invoke o.cx o.tor input).2) ∧
      (l.Invoke o.cx o.tor input).1.error = (l.Invoke o.cx o.tor input).2 ∧
      (l.Invoke o.cx o.tor input).1.duration = o.tor.elapsed ∧
      (l.Invoke o.cx o.tor input).1.timestamp = o.tor.now) ∧
    (∀ (o : InvOracle) (name : String) (input : I) (errNow : Nat) (e : Err),
      (Invoker.Invoke inv reg o name input).2 = some e →
      Invoker.InvokeAsync inv reg o name input errNow
        = { output := default, error := some e, duration := 0
          , timestamp := errNow }) ∧
    (∀ (o : InvOracle) (name : String) (input : I) (errNow : Nat)
       (r : LambdaResult O),
      Invoker.Invoke inv reg o name input = (some r, none) →
      Invoker.InvokeAsync inv reg o name input errNow = r) ∧
    (∀ (os : Nat → InvOracle) (errNow : Nat → Nat)
       (reqs : List (String × I)) (j : Nat) (nm : String) (inp : I) (e : Err),
      reqs[j]? = some (nm, inp) →
      (Invoker.Invoke inv reg (os j) nm inp).2 = some e →
      (Invoker.InvokeMultiple inv reg os errNow reqs)[j]?
        = some (nm, { output := default, error := some e, duration := 0
                    , timestamp := errNow j })) ∧
    (∀ (os : Nat → InvOracle) (pre : Nat → Option Err) (name : String)
       (input : I) (maxRetries now k : Nat) (e : Err),
      0 < k → k ≤ maxRetries →
      (∀ j, j < k → (invAttemptErr inv reg os name input j).isSome = true) →
      (∀ j, j < k → 0 < j → pre j = none) →
      pre k = some e →
      Invoker.Retry inv reg os pre name input maxRetries now
        = (none, some e)) ∧
    (∀ (os : Nat → InvOracle) (pre : Nat → Option Err) (name : String)
       (input : I) (maxRetries now : Nat),
      (∀ j, j < maxRetries + 1 →
        (invAttemptErr inv reg os name input j).isSome = true) →
      (∀ j, j < maxRetries + 1 → 0 < j → pre j = none) →
      Invoker.Retry inv reg os pre name input maxRetries now
        = (some { output := default
                , error := some (.maxRetriesExceeded
                    ((invAttemptErr inv reg os name input maxRetries).getD
                      (.msg "nil")))
                , duration := 0, timestamp := now },
           invAttemptErr inv reg os name input maxRetries)) := by
  refine ⟨?_, ?_, ?_, ?_, ?_, ?_, ?_, ?_⟩
  · intro o name input h
    constructor
    · unfold Invoker.Invoke
      rw [h]
    · unfold Invoker.Timeout Invoker.Invoke
      rw [h]
  · intro o name input cap e l hl hs hd
    unfold Invoker.Invoke
    rw [hl, hs, hd]
  · intro o name input l hl hs
    refine ⟨?_, (lambdaInvoke_shell l o.cx o.tor input).1,
      (lambdaInvoke_shell l o.cx o.tor input).2.1,
      (lambdaInvoke_shell l o.cx o.tor input).2.2⟩
    unfold Invoker.Invoke
    rw [hl, hs]
  · intro o name input errNow e h
    cases hI : Invoker.Invoke inv reg o name input with
    | mk ro oe =>
      have hoe : oe = some e := by rw [hI] at h; exact h
      subst hoe
      unfold Invoker.InvokeAsync
      rw [hI]
  · intro o name input errNow r h
    unfold Invoker.InvokeAsync
    rw [h]
    rfl
  · intro os errNow reqs j nm inp e hreq h
    have hg := invokeMultipleGo_get inv reg os errNow reqs 0 j nm inp hreq
    rw [Nat.zero_add] at hg
    cases hI : Invoker.Invoke inv reg (os j) nm inp with
    | mk ro oe =>
      have hoe : oe = some e := by rw [hI] at h; exact h
      subst hoe
      rw [hI] at hg
      show (Invoker.InvokeMultiple inv reg os errNow reqs)[j]? = _
      rw [Invoker.InvokeMultiple, hg]
  · intro os pre name input maxRetries now k e hk0 hk hfails hpre hsome
    show invRetryGo inv reg os pre name input now 0 (maxRetries + 1) none
      = (none, some e)
    exact invRetryGo_clean_pre_abort inv reg os pre name input now e k 0
      (maxRetries + 1) none (by omega)
      (fun j hj => by simpa using hfails j hj)
      (fun j hj hp => by simpa using hpre j hj (by simpa using hp))
      (by simpa using hk0)
      (by simpa using hsome)
  · intro os pre name input maxRetries now hfails hpre
    show invRetryGo inv reg os pre name input now 0 (maxRetries + 1) none = _
    have h := invRetryGo_clean_exhaust inv reg os pre name input now
      (maxRetries + 1) 0 none (Nat.succ_pos _)
      (fun j hj => by simpa using hfails j hj)
      (fun j hj hp => by simpa using hpre j hj (by simpa using hp))
    simpa using h

/-- Witness for C1 amended at the empty registry: `Invoke` on a missing
name yields a nil result, `InvokeAsync` still delivers a populated shell,
and exhausted `Retry` returns a populated shell wrapping the not-found
error. -/
theorem invoker_error_result_shells_witness :
    Invoker.Invoke invPlain emptyRegN oracle0 "missing" 0
      = (none, some (.notFound "missing")) ∧
    Invoker.InvokeAsync invPlain emptyRegN oracle0 "missing" 0 7
      = { output := 0, error := some (.notFound "missing"), duration := 0
        , timestamp := 7 } ∧
    Invoker.Retry invPlain emptyRegN os0 pre0 "missing" 0 2 5
      = (some { output := 0
              , error := some (.maxRetriesExceeded (.notFound "missing"))
              , duration := 0, timestamp := 5 },
         some (.notFound "missing")) := by
  refine ⟨?_, ?_, ?_⟩
  · exact ((invoker_error_result_shells invPlain emptyRegN).1 oracle0
      "missing" 0 rfl).1
  · exact (invoker_error_result_shells invPlain emptyRegN).2.2.2.1 oracle0
      "missing" 0 7 (.notFound "missing") rfl
  · exact (invoker_error_result_shells invPlain emptyRegN).2.2.2.2.2.2.2 os0
      pre0 "missing" 0 2 5 (by decide) (by decide)

end MiniLambda
